import Mathlib

set_option maxRecDepth 8192

/-
Verification of the credential-resolution core and HTTP error taxonomy of
sentinel-signal-mcp.  The Python modules `credentials.py`, `client.py` and
`config.py` are shallowly embedded: JSON payloads become the inductive
`JValue`, the credential file system becomes an association list from path
to file text, the trial-issuer HTTP exchange becomes an explicit
`MintResult` input, and `datetime.fromisoformat` on timezone-aware
ISO-8601 strings becomes an abstract parameter `parse : String → Option Int`
producing an instant on a totally ordered time line (the data model fixes
expiry stamps to the Z / offset forms, which parse to aware datetimes).
-/

/-- Characters stripped by Python `str.strip()` (ASCII whitespace plus the
common Unicode whitespace code points reachable in headers and keys). -/
def isPyWs (c : Char) : Bool :=
  c = ' ' ∨ c = Char.ofNat 9 ∨ c = Char.ofNat 10 ∨ c = Char.ofNat 13 ∨
  c = Char.ofNat 11 ∨ c = Char.ofNat 12 ∨ c = Char.ofNat 28 ∨
  c = Char.ofNat 29 ∨ c = Char.ofNat 30 ∨ c = Char.ofNat 31 ∨
  c = Char.ofNat 133 ∨ c = Char.ofNat 160

/-- Python `str.strip()`: drop leading and trailing whitespace. -/
def pyStrip (s : String) : String :=
  String.mk (((s.data.dropWhile isPyWs).reverse.dropWhile isPyWs).reverse)

/-- Python `str.rstrip("/")`: drop trailing slashes. -/
def rstripSlash (s : String) : String :=
  String.mk ((s.data.reverse.dropWhile (fun c => c = '/')).reverse)

/-- JSON values as produced by `json.loads` in this code base.  Numbers are
restricted to integers: no credential field or error payload field consumed
by the program carries a fractional number, and float formatting is outside
the model. -/
inductive JValue where
  | null
  | bool (b : Bool)
  | num (n : Int)
  | str (s : String)
  | arr (xs : List JValue)
  | obj (fields : List (String × JValue))

/-- Python truthiness of a JSON value (`if value:`). -/
def jTruthy : JValue → Bool
  | .null => false
  | .bool b => b
  | .num n => n ≠ 0
  | .str s => s ≠ ""
  | .arr xs => !xs.isEmpty
  | .obj fs => !fs.isEmpty

/-- Python `dict.get(key)` with default `None`. -/
def pyGet (fields : List (String × JValue)) (k : String) : JValue :=
  (List.lookup k fields).getD .null

/-- Python `d[k] = v` on a dict: replace the value in place when the key is
present, append otherwise. -/
def assocSet {β : Type} : List (String × β) → String → β → List (String × β)
  | [], k, v => [(k, v)]
  | (k0, v0) :: rest, k, v =>
    if k0 = k then (k0, v) :: rest else (k0, v0) :: assocSet rest k v

/-- Remove every binding of a key from an association list. -/
def assocDel {β : Type} (l : List (String × β)) (k : String) : List (String × β) :=
  l.filter (fun p => p.1 ≠ k)

theorem pyStrip_empty : pyStrip "" = "" := rfl

theorem pyStrip_ne_empty_of {s : String} (h : pyStrip s ≠ "") : s ≠ "" := by
  intro he
  exact h (by rw [he]; rfl)

/-- Python `str.replace("Z", "+00:00")` as used by `_parse_dt`: the pattern
is the single character `Z`, so replacement is char-by-char expansion. -/
def pyReplaceZ (s : String) : String :=
  String.mk (s.data.foldr (fun c acc => if c = 'Z' then "+00:00".data ++ acc else c :: acc) [])

mutual
/-- Python `repr` on JSON values, used by `str()` on containers.  The quote
choice heuristic of `repr` on strings is modelled with single quotes; it is
only reachable when a cached base-URL field is a container, where the exact
text never matches a URL. -/
def pyRepr : JValue → String
  | .null => "None"
  | .bool true => "True"
  | .bool false => "False"
  | .num n => toString n
  | .str s => "'" ++ s ++ "'"
  | .arr xs => "[" ++ String.intercalate ", " (pyReprList xs) ++ "]"
  | .obj fs => "\x7b" ++ String.intercalate ", " (pyReprFields fs) ++ "\x7d"
def pyReprList : List JValue → List String
  | [] => []
  | x :: xs => pyRepr x :: pyReprList xs
def pyReprFields : List (String × JValue) → List String
  | [] => []
  | (k, v) :: fs => ("'" ++ k ++ "': " ++ pyRepr v) :: pyReprFields fs
end

/-- Python `str()` on a JSON value. -/
def pyStr : JValue → String
  | .null => "None"
  | .bool true => "True"
  | .bool false => "False"
  | .num n => toString n
  | .str s => s
  | .arr xs => pyRepr (.arr xs)
  | .obj fs => pyRepr (.obj fs)

/-- Python `str(x or "")` as applied by `bases_match` to a field value. -/
def strOrEmpty (v : JValue) : String := if jTruthy v then pyStr v else ""

/-- Insert one key-value pair into a list sorted by key (code-point order,
as Python `sorted` compares `str`). -/
def insertByKey (p : String × JValue) : List (String × JValue) → List (String × JValue)
  | [] => [p]
  | q :: rest => if p.1 < q.1 then p :: q :: rest else q :: insertByKey p rest

/-- Sort an association list by key, as `json.dumps(..., sort_keys=True)`. -/
def sortByKey : List (String × JValue) → List (String × JValue)
  | [] => []
  | p :: rest => insertByKey p (sortByKey rest)

mutual
/-- Deep key-sort of a JSON value, the normal form emitted by
`json.dumps(..., sort_keys=True)`. -/
def sortV : JValue → JValue
  | .null => .null
  | .bool b => .bool b
  | .num n => .num n
  | .str s => .str s
  | .arr xs => .arr (sortL xs)
  | .obj fs => .obj (sortByKey (sortM fs))
def sortL : List JValue → List JValue
  | [] => []
  | x :: xs => sortV x :: sortL xs
def sortM : List (String × JValue) → List (String × JValue)
  | [] => []
  | (k, v) :: fs => (k, sortV v) :: sortM fs
end

def quoteChar : Char := Char.ofNat 34
def backslashChar : Char := Char.ofNat 92
def lbrackChar : Char := Char.ofNat 91
def rbrackChar : Char := Char.ofNat 93
def lbraceChar : Char := Char.ofNat 123
def rbraceChar : Char := Char.ofNat 125
def nlChar : Char := Char.ofNat 10

/-- Lowercase hex digit, as emitted by `json.dumps` unicode escapes. -/
def toHexDigit (n : Nat) : Char :=
  if n < 10 then Char.ofNat (48 + n) else Char.ofNat (87 + n)

def hex4chars (n : Nat) : List Char :=
  [toHexDigit (n / 4096 % 16), toHexDigit (n / 256 % 16),
   toHexDigit (n / 16 % 16), toHexDigit (n % 16)]

/-- One character of `json.dumps` string output with `ensure_ascii=True`:
quote and backslash get short escapes, the common control characters get
their two-character escapes, printable ASCII passes through, and everything
else becomes `\uXXXX` (a surrogate pair beyond the BMP). -/
def encodeChar (c : Char) : List Char :=
  let n := c.toNat
  if c = quoteChar then [backslashChar, quoteChar]
  else if c = backslashChar then [backslashChar, backslashChar]
  else if n = 10 then [backslashChar, 'n']
  else if n = 13 then [backslashChar, 'r']
  else if n = 9 then [backslashChar, 't']
  else if n = 8 then [backslashChar, 'b']
  else if n = 12 then [backslashChar, 'f']
  else if 32 ≤ n ∧ n ≤ 126 then [c]
  else if n ≤ 65535 then backslashChar :: 'u' :: hex4chars n
  else (backslashChar :: 'u' :: hex4chars (55296 + (n - 65536) / 1024)) ++
       (backslashChar :: 'u' :: hex4chars (56320 + (n - 65536) % 1024))

def encodeChars : List Char → List Char
  | [] => []
  | c :: cs => encodeChar c ++ encodeChars cs

/-- A JSON string literal: quote, escaped characters, quote. -/
def encodeStr (s : String) : List Char :=
  quoteChar :: (encodeChars s.data ++ [quoteChar])

/-- Decimal digits of a natural number (fuel equals the number itself,
which always suffices). -/
def natDigits : Nat → Nat → List Char
  | 0, _ => []
  | fuel + 1, n =>
    if n < 10 then [Char.ofNat (48 + n)]
    else natDigits fuel (n / 10) ++ [Char.ofNat (48 + n % 10)]

def encNat (n : Nat) : List Char := natDigits (n + 1) n

/-- Decimal rendering of a Python int, as `json.dumps` prints it. -/
def encInt (i : Int) : List Char :=
  if i < 0 then '-' :: encNat i.natAbs else encNat i.toNat

def spacesChars (n : Nat) : List Char := List.replicate n ' '

def newlineIndent (d : Nat) : List Char := nlChar :: spacesChars d

mutual
/-- Text of `json.dumps(v, indent=2)` at indent level `d`, for a value that
is already deep-sorted (`json.dumps(..., sort_keys=True)` is `encV` after
`sortV`). -/
def encV : Nat → JValue → List Char
  | _, .null => ['n', 'u', 'l', 'l']
  | _, .bool true => ['t', 'r', 'u', 'e']
  | _, .bool false => ['f', 'a', 'l', 's', 'e']
  | _, .num n => encInt n
  | _, .str s => encodeStr s
  | _, .arr [] => [lbrackChar, rbrackChar]
  | d, .arr (x :: xs) =>
    lbrackChar :: (newlineIndent (d + 2) ++ encV (d + 2) x ++ encLRest (d + 2) xs ++
      newlineIndent d ++ [rbrackChar])
  | _, .obj [] => [lbraceChar, rbraceChar]
  | d, .obj ((k, v) :: fs) =>
    lbraceChar :: (newlineIndent (d + 2) ++ encodeStr k ++ (':' :: ' ' :: encV (d + 2) v) ++
      encMRest (d + 2) fs ++ newlineIndent d ++ [rbraceChar])
def encLRest : Nat → List JValue → List Char
  | _, [] => []
  | d, x :: xs => ',' :: (newlineIndent d ++ encV d x ++ encLRest d xs)
def encMRest : Nat → List (String × JValue) → List Char
  | _, [] => []
  | d, (k, v) :: fs =>
    ',' :: (newlineIndent d ++ encodeStr k ++ (':' :: ' ' :: encV d v) ++ encMRest d fs)
end

/-- `json.dumps(v, indent=2, sort_keys=True)`. -/
def jsonDumps (v : JValue) : String := String.mk (encV 0 (sortV v))

/-- JSON whitespace accepted between tokens by `json.loads`. -/
def jsonWs (c : Char) : Bool :=
  c = ' ' ∨ c = Char.ofNat 9 ∨ c = Char.ofNat 10 ∨ c = Char.ofNat 13

def skipWs (cs : List Char) : List Char := cs.dropWhile jsonWs

def digitVal (c : Char) : Nat := c.toNat - 48

def digitsToNat (ds : List Char) : Nat :=
  ds.foldl (fun a c => a * 10 + digitVal c) 0

/-- Maximal run of decimal digits, rejecting an empty run and rejecting a
following fraction or exponent character (floats are outside the model). -/
def parseDigits (cs : List Char) : Option (Nat × List Char) :=
  let ds := cs.takeWhile Char.isDigit
  if ds.isEmpty then none
  else
    let rest := cs.dropWhile Char.isDigit
    match rest with
    | c :: _ =>
      if c = '.' ∨ c = 'e' ∨ c = 'E' then none else some (digitsToNat ds, rest)
    | [] => some (digitsToNat ds, [])

def parseNum : List Char → Option (Int × List Char)
  | [] => none
  | c :: rest =>
    if c = '-' then (parseDigits rest).map (fun p => (-(p.1 : Int), p.2))
    else (parseDigits (c :: rest)).map (fun p => ((p.1 : Int), p.2))

def hexDigitVal (c : Char) : Option Nat :=
  if c.isDigit then some (c.toNat - 48)
  else if 'a' ≤ c ∧ c ≤ 'f' then some (c.toNat - 87)
  else if 'A' ≤ c ∧ c ≤ 'F' then some (c.toNat - 55)
  else none

def hex4Val (a b c d : Char) : Option Nat := do
  let x ← hexDigitVal a
  let y ← hexDigitVal b
  let z ← hexDigitVal c
  let w ← hexDigitVal d
  pure (x * 4096 + y * 256 + z * 16 + w)

/-- A unicode scalar from a decoded code point; lone surrogates are outside
the model (the serializer never produces them). -/
def charFromNat (n : Nat) : Option Char :=
  if n < 55296 ∨ (57343 < n ∧ n < 1114112) then some (Char.ofNat n) else none

def consFst (c : Char) (p : List Char × List Char) : List Char × List Char :=
  (c :: p.1, p.2)

/-- Decode one escape sequence after a backslash: the short escapes and
`\uXXXX`, recombining surrogate pairs.  Returns the decoded character and
the remaining input. -/
def decodeEsc : List Char → Option (Char × List Char)
  | [] => none
  | e :: rest2 =>
    if e = quoteChar then some (quoteChar, rest2)
    else if e = backslashChar then some (backslashChar, rest2)
    else if e = '/' then some ('/', rest2)
    else if e = 'b' then some (Char.ofNat 8, rest2)
    else if e = 'f' then some (Char.ofNat 12, rest2)
    else if e = 'n' then some (Char.ofNat 10, rest2)
    else if e = 'r' then some (Char.ofNat 13, rest2)
    else if e = 't' then some (Char.ofNat 9, rest2)
    else if e = 'u' then
      match rest2 with
      | h1 :: h2 :: h3 :: h4 :: rest3 =>
        match hex4Val h1 h2 h3 h4 with
        | none => none
        | some n =>
          if 55296 ≤ n ∧ n ≤ 56319 then
            match rest3 with
            | b1 :: u2 :: h5 :: h6 :: h7 :: h8 :: rest4 =>
              if b1 = backslashChar ∧ u2 = 'u' then
                match hex4Val h5 h6 h7 h8 with
                | none => none
                | some m =>
                  if 56320 ≤ m ∧ m ≤ 57343 then
                    some (Char.ofNat (65536 + (n - 55296) * 1024 + (m - 56320)), rest4)
                  else none
              else none
            | _ => none
          else
            match charFromNat n with
            | none => none
            | some ch => some (ch, rest3)
      | _ => none
    else none

/-- Decode a JSON string body up to and including its closing quote,
returning the decoded characters and the remaining input.  Fuel is
structural bookkeeping only: every step consumes at least one input
character, so the input length bounds the iterations. -/
def decodeStrAux : Nat → List Char → Option (List Char × List Char)
  | 0, _ => none
  | fuel + 1, cs =>
    match cs with
    | [] => none
    | c :: rest =>
      if c = quoteChar then some ([], rest)
      else if c = backslashChar then
        match decodeEsc rest with
        | none => none
        | some (ch, rest2) => (decodeStrAux fuel rest2).map (consFst ch)
      else (decodeStrAux fuel rest).map (consFst c)

def decodeStr (cs : List Char) : Option (List Char × List Char) :=
  decodeStrAux (cs.length + 1) cs

mutual
/-- Recursive-descent JSON value parser with structural fuel; `jsonLoads`
supplies fuel ample for its input.  Mirrors what `json.loads` accepts on
the payloads this program reads (integers only among numbers; an `obj`
models a Python dict, whose keys are unique, so no duplicate-key collapse
is applied). -/
def parseVal : Nat → List Char → Option (JValue × List Char)
  | 0, _ => none
  | fuel + 1, cs =>
    match cs with
    | [] => none
    | c :: rest =>
      if c = quoteChar then
        (decodeStr rest).map (fun p => (JValue.str (String.mk p.1), p.2))
      else if c = lbrackChar then parseItems fuel (skipWs rest)
      else if c = lbraceChar then parseMembers fuel (skipWs rest)
      else if c = 'n' then
        match rest with
        | 'u' :: 'l' :: 'l' :: r => some (.null, r)
        | _ => none
      else if c = 't' then
        match rest with
        | 'r' :: 'u' :: 'e' :: r => some (.bool true, r)
        | _ => none
      else if c = 'f' then
        match rest with
        | 'a' :: 'l' :: 's' :: 'e' :: r => some (.bool false, r)
        | _ => none
      else (parseNum (c :: rest)).map (fun p => (JValue.num p.1, p.2))

def parseItems : Nat → List Char → Option (JValue × List Char)
  | 0, _ => none
  | fuel + 1, cs =>
    match cs with
    | [] => none
    | c :: rest =>
      if c = rbrackChar then some (.arr [], rest)
      else
        match parseVal fuel cs with
        | none => none
        | some (v, r) =>
          match parseItemsRest fuel (skipWs r) with
          | some (xs, r2) => some (.arr (v :: xs), r2)
          | none => none

def parseItemsRest : Nat → List Char → Option (List JValue × List Char)
  | 0, _ => none
  | fuel + 1, cs =>
    match cs with
    | [] => none
    | c :: rest =>
      if c = rbrackChar then some ([], rest)
      else if c = ',' then
        match parseVal fuel (skipWs rest) with
        | none => none
        | some (v, r) =>
          match parseItemsRest fuel (skipWs r) with
          | some (xs, r2) => some (v :: xs, r2)
          | none => none
      else none

def parseMembers : Nat → List Char → Option (JValue × List Char)
  | 0, _ => none
  | fuel + 1, cs =>
    match cs with
    | [] => none
    | c :: rest =>
      if c = rbraceChar then some (.obj [], rest)
      else if c = quoteChar then
        match decodeStr rest with
        | none => none
        | some (kcs, r1) =>
          match skipWs r1 with
          | c2 :: r2 =>
            if c2 = ':' then
              match parseVal fuel (skipWs r2) with
              | none => none
              | some (v, r3) =>
                match parseMembersRest fuel (skipWs r3) with
                | some (fs, r4) => some (.obj ((String.mk kcs, v) :: fs), r4)
                | none => none
            else none
          | [] => none
      else none

def parseMembersRest : Nat → List Char → Option (List (String × JValue) × List Char)
  | 0, _ => none
  | fuel + 1, cs =>
    match cs with
    | [] => none
    | c :: rest =>
      if c = rbraceChar then some ([], rest)
      else if c = ',' then
        match skipWs rest with
        | q :: r0 =>
          if q = quoteChar then
            match decodeStr r0 with
            | none => none
            | some (kcs, r1) =>
              match skipWs r1 with
              | c2 :: r2 =>
                if c2 = ':' then
                  match parseVal fuel (skipWs r2) with
                  | none => none
                  | some (v, r3) =>
                    match parseMembersRest fuel (skipWs r3) with
                    | some (fs, r4) => some ((String.mk kcs, v) :: fs, r4)
                    | none => none
                else none
              | [] => none
          else none
        | [] => none
      else none
end

/-- `json.loads`: parse one value surrounded by optional whitespace. -/
def jsonLoads (s : String) : Option JValue :=
  let cs := skipWs s.data
  match parseVal (4 * cs.length + 4) cs with
  | some (v, rest) => if (skipWs rest).isEmpty then some v else none
  | none => none

/-- Resolved configuration (`config.Settings`).  `timeout_seconds` is a
float consumed only by the HTTP transport and is not modelled. -/
structure Settings where
  api_base_url : String
  token_base_url : String
  api_key : Option String
  credentials_path : String
  no_trial : Bool
  user_agent : String

/-- In-memory resolution result (`credentials.ResolvedCredentials`). -/
structure ResolvedCredentials where
  api_key : String
  source : String
  metadata : List (String × JValue)

/-- The credential file system: path to file text. -/
abbrev FileSys := List (String × String)

/-- Python truthiness of `settings.api_key` (`None` or `str`). -/
def pyTruthyOptStr : Option String → Bool
  | none => false
  | some s => s ≠ ""

/-- `credentials.load_cached_credentials`: absent file, unreadable file,
invalid JSON and non-object payloads all collapse to `None`. -/
def load_cached_credentials (fs : FileSys) (path : String) :
    Option (List (String × JValue)) :=
  match List.lookup path fs with
  | none => none
  | some txt =>
    match jsonLoads txt with
    | some (.obj fields) => some fields
    | _ => none

/-- `credentials.save_cached_credentials`: write the formatted JSON to the
sibling `.tmp` file, then atomically rename it over the target.  The mode
0600 chmod calls touch only permission metadata, which the file-system
model does not carry. -/
def save_cached_credentials (fs : FileSys) (path : String)
    (payload : List (String × JValue)) : FileSys :=
  let tmp := path ++ ".tmp"
  let txt := jsonDumps (.obj payload)
  let fs1 := assocSet fs tmp txt
  assocSet (assocDel fs1 tmp) path txt

/-- `credentials.remove_cached_credentials`. -/
def remove_cached_credentials (fs : FileSys) (path : String) : Bool × FileSys :=
  match List.lookup path fs with
  | some _ => (true, assocDel fs path)
  | none => (false, fs)

/-- `credentials.is_expired`.  `parse` abstracts
`datetime.fromisoformat` composed with conversion to an instant on the
UTC time line: `none` is a `ValueError`, `some t` an aware datetime
(the data model fixes stamps to the `Z`/offset forms).  `now` is
`datetime.now(timezone.utc)`. -/
def is_expired (parse : String → Option Int) (now : Int)
    (creds : List (String × JValue)) : Bool :=
  match List.lookup "expires_at" creds with
  | some (.str s) =>
    if pyStrip s = "" then false
    else
      match parse (pyReplaceZ (pyStrip s)) with
      | none => true
      | some t => decide (t ≤ now)
  | _ => false

/-- `credentials.bases_match`. -/
def bases_match (creds : List (String × JValue))
    (api_base_url token_base_url : String) : Bool :=
  decide (rstripSlash (strOrEmpty (pyGet creds "api_base_url")) = rstripSlash api_base_url ∧
    rstripSlash (strOrEmpty (pyGet creds "token_base_url")) = rstripSlash token_base_url)

/-- `credentials._validate_cached_credentials`: the api key must be a
string that is non-blank after stripping. -/
def validate_cached_credentials (creds : List (String × JValue)) : Bool :=
  match List.lookup "api_key" creds with
  | some (.str s) => pyStrip s ≠ ""
  | _ => false

/-- Outcome of the one `POST {token_base_url}/v1/keys/trial` exchange a
resolution can make: transport failure, or a response with status and
body text. -/
inductive MintResult where
  | transportError (msg : String)
  | httpResponse (status : Nat) (body : String)

/-- `credentials.fetch_trial_key`: transport errors, error statuses
(`httpx` `is_error`: 400–599), non-object bodies and missing/blank api
keys fail with `CredentialResolutionError` (the `Except.error` branch);
a usable payload is stamped with the current base URLs. -/
def fetch_trial_key (settings : Settings) (mint : MintResult) :
    Except String (List (String × JValue)) :=
  match mint with
  | .transportError msg =>
    .error ("Failed to mint trial key from " ++ settings.token_base_url ++
      "/v1/keys/trial: " ++ msg)
  | .httpResponse status body =>
    let payload : JValue :=
      match jsonLoads body with
      | some j => j
      | none => .obj [("raw_text", .str body)]
    if 400 ≤ status ∧ status ≤ 599 then
      .error ("Trial key mint failed (" ++ toString status ++ "): " ++ pyStr payload)
    else
      match payload with
      | .obj fields =>
        match List.lookup "api_key" fields with
        | some (.str k) =>
          if pyStrip k = "" then .error "Trial key response missing api_key"
          else
            .ok (assocSet (assocSet fields "api_base_url" (.str settings.api_base_url))
              "token_base_url" (.str settings.token_base_url))
        | _ => .error "Trial key response missing api_key"
      | _ => .error "Trial key response was not a JSON object"

/-- Everything observable about one `resolve_credentials` call: its result
and the effects on the credential file, together with the paths read and
written and the number of mint requests issued. -/
structure ResolveOutcome where
  result : Except String ResolvedCredentials
  fs : FileSys
  readPaths : List String
  writePaths : List String
  mintCalls : Nat

/-- The cached-record acceptance test of `resolve_credentials` (lines
131–137): the loaded record must be a non-empty dict, validate, be
unexpired, and match both base URLs.  The source interleaves these as
nested `if`s with no effects in between, so the conjunction is exact. -/
def usableCachedRecord (fs : FileSys) (settings : Settings)
    (parse : String → Option Int) (now : Int) :
    Option (List (String × JValue)) :=
  match load_cached_credentials fs settings.credentials_path with
  | some cached =>
    if !cached.isEmpty ∧ validate_cached_credentials cached = true ∧
        is_expired parse now cached = false ∧
        bases_match cached settings.api_base_url settings.token_base_url = true
    then some cached else none
  | none => none

/-- The body of the lock-guarded branch of `resolve_credentials` (lines
130–155); the lock serialises callers and is not itself modelled. -/
def resolveLocked (settings : Settings) (fs : FileSys) (mint : MintResult)
    (parse : String → Option Int) (now : Int) : ResolveOutcome :=
  match usableCachedRecord fs settings parse now with
  | some cached =>
    { result := .ok
        { api_key := pyStr (pyGet cached "api_key"), source := "cache",
          metadata := assocSet cached "source" (.str "cache") },
      fs := fs, readPaths := [settings.credentials_path], writePaths := [],
      mintCalls := 0 }
  | none =>
    if settings.no_trial then
      { result := .error
          "SENTINEL_API_KEY is not set and auto-trial is disabled (SENTINEL_NO_TRIAL=1).",
        fs := fs, readPaths := [settings.credentials_path], writePaths := [],
        mintCalls := 0 }
    else
      match fetch_trial_key settings mint with
      | .error e =>
        { result := .error e, fs := fs, readPaths := [settings.credentials_path],
          writePaths := [], mintCalls := 1 }
      | .ok minted =>
        { result := .ok
            { api_key := pyStr (pyGet minted "api_key"), source := "trial",
              metadata := assocSet minted "source" (.str "trial") },
          fs := save_cached_credentials fs settings.credentials_path minted,
          readPaths := [settings.credentials_path],
          writePaths := [settings.credentials_path], mintCalls := 1 }

/-- `credentials.resolve_credentials`.  A truthy static key returns
immediately with provenance `env`; otherwise the locked branch runs. -/
def resolve_credentials (settings : Settings) (fs : FileSys) (mint : MintResult)
    (parse : String → Option Int) (now : Int) : ResolveOutcome :=
  if pyTruthyOptStr settings.api_key then
    { result := .ok
        { api_key := settings.api_key.getD "", source := "env",
          metadata :=
            [("source", .str "env"),
             ("api_base_url", .str settings.api_base_url),
             ("token_base_url", .str settings.token_base_url)] },
      fs := fs, readPaths := [], writePaths := [], mintCalls := 0 }
  else resolveLocked settings fs mint parse now

/-- The slice of an HTTP response that the error classifier reads: the
status code and the (case-insensitively looked up) `Retry-After` header. -/
structure HttpResponse where
  status_code : Nat
  retry_after : Option String

/-- `client.SentinelAPIError` as a value: the structured error raised for
a non-2xx response.  `upgrade_url` is a `JValue` because the metadata
fallback copies whatever the cached record holds; `.null` is Python
`None`. -/
structure SentinelAPIError where
  message : String
  status_code : Option Nat := none
  code : Option String := none
  action : Option String := none
  upgrade_url : JValue := .null
  retry_after_seconds : Option Int := none
  payload : JValue := .null

/-- `client._extract_error_object`: the dict under `error`, else the dict
under `detail`, else the payload itself; `{}` for non-dict payloads. -/
def extract_error_object (payload : JValue) : List (String × JValue) :=
  match payload with
  | .obj fields =>
    match List.lookup "error" fields with
    | some (.obj o) => o
    | _ =>
      match List.lookup "detail" fields with
      | some (.obj o) => o
      | _ => fields
  | _ => []

/-- The key loop of `_extract_message`: first key bound to a string that
is non-blank after stripping, returned stripped. -/
def firstNonBlankKey (eo : List (String × JValue)) : List String → Option String
  | [] => none
  | k :: ks =>
    match List.lookup k eo with
    | some (.str s) => if pyStrip s = "" then firstNonBlankKey eo ks else some (pyStrip s)
    | _ => firstNonBlankKey eo ks

/-- `client._extract_message`. -/
def extract_message (payload : JValue) (status_code : Nat) : String :=
  match firstNonBlankKey (extract_error_object payload) ["message", "detail", "error"] with
  | some m => m
  | none =>
    match payload with
    | .obj fields =>
      match List.lookup "detail" fields with
      | some (.str d) =>
        if pyStrip d = "" then "Sentinel API error " ++ toString status_code
        else pyStrip d
      | _ => "Sentinel API error " ++ toString status_code
    | _ => "Sentinel API error " ++ toString status_code

/-- `client._extract_code`. -/
def extract_code (payload : JValue) : Option String :=
  match List.lookup "code" (extract_error_object payload) with
  | some (.str s) => if pyStrip s = "" then none else some (pyStrip s)
  | _ => none

/-- The nested loop of `_extract_upgrade_url` over the `error` and
`detail` keys: unlike `extract_error_object`, failing to find a URL under
`error` falls through to `detail`. -/
def upgradeFromNested (fields : List (String × JValue)) : List String → Option String
  | [] => none
  | k :: ks =>
    match List.lookup k fields with
    | some (.obj o) =>
      match List.lookup "upgrade_url" o with
      | some (.str s) =>
        if pyStrip s = "" then upgradeFromNested fields ks else some (pyStrip s)
      | _ => upgradeFromNested fields ks
    | _ => upgradeFromNested fields ks

/-- `client._extract_upgrade_url`: a non-blank top-level `upgrade_url`
string, else one nested under `error` or `detail`. -/
def extract_upgrade_url (payload : JValue) : Option String :=
  match payload with
  | .obj fields =>
    match List.lookup "upgrade_url" fields with
    | some (.str s) =>
      if pyStrip s = "" then upgradeFromNested fields ["error", "detail"]
      else some (pyStrip s)
    | _ => upgradeFromNested fields ["error", "detail"]
  | _ => none

/-- Digit tail of Python `int(str)`: digits with single underscores
allowed between digits only. -/
def pyIntAux (acc : Nat) : List Char → Option Nat
  | [] => some acc
  | c :: rest =>
    if c.isDigit then pyIntAux (acc * 10 + digitVal c) rest
    else if c = '_' then
      match rest with
      | d :: rest2 =>
        if d.isDigit then pyIntAux (acc * 10 + digitVal d) rest2 else none
      | [] => none
    else none

def pyIntCore : List Char → Option Nat
  | [] => none
  | c :: rest => if c.isDigit then pyIntAux (digitVal c) rest else none

/-- Python `int(s)` on a string: surrounding whitespace tolerated, an
optional sign, then ASCII digits with optional single underscores between
them (non-ASCII digit forms are outside the model). -/
def pyIntParse (s : String) : Option Int :=
  match (pyStrip s).data with
  | [] => none
  | c :: rest =>
    if c = '+' then (pyIntCore rest).map (fun n => (n : Int))
    else if c = '-' then (pyIntCore rest).map (fun n => -(n : Int))
    else (pyIntCore (c :: rest)).map (fun n => (n : Int))

/-- `client._parse_retry_after_seconds`: strip the header (absent reads as
the empty string), parse as `int`, keep only non-negative values. -/
def parse_retry_after_seconds (response : HttpResponse) : Option Int :=
  let raw := pyStrip (response.retry_after.getD "")
  if raw = "" then none
  else
    match pyIntParse raw with
    | none => none
    | some v => if 0 ≤ v then some v else none

/-- `client._raise_for_error_response`, returning the structured error it
raises. -/
def raise_for_error_response (response : HttpResponse) (payload : JValue)
    (credentials : ResolvedCredentials) : SentinelAPIError :=
  let status_code := response.status_code
  let message := extract_message payload status_code
  let code := extract_code payload
  let upgrade_url : JValue :=
    match extract_upgrade_url payload with
    | some u => .str u
    | none => pyGet credentials.metadata "upgrade_url"
  if status_code = 402 then
    let agent_code :=
      match code with
      | some c =>
        if c ≠ "" ∧ pyStrip c ≠ "" then
          (if c = "trial_quota_exhausted" then "quota_exhausted" else c)
        else "quota_exhausted"
      | none => "quota_exhausted"
    { message := message, status_code := some status_code, code := some agent_code,
      action := some "upgrade_required", upgrade_url := upgrade_url,
      payload := payload }
  else if status_code = 429 then
    { message := message, status_code := some status_code,
      code := some
        (match code with
         | some c => if c ≠ "" then c else "rate_limited"
         | none => "rate_limited"),
      action := some "retry_later",
      retry_after_seconds := parse_retry_after_seconds response,
      payload := payload }
  else if status_code = 401 ∨ status_code = 403 then
    { message := "Authentication failed. Check SENTINEL_API_KEY or refresh cached trial credentials.",
      status_code := some status_code,
      code := some
        (match code with
         | some c => if c ≠ "" then c else "auth_failed"
         | none => "auth_failed"),
      action := some "configure_credentials", payload := payload }
  else
    { message := "Sentinel API error " ++ toString status_code ++ ": " ++ pyStr payload,
      status_code := some status_code, code := code, payload := payload }

/-- C4: `is_expired` returns true exactly when the record carries an
expiry timestamp (a non-blank string under `expires_at`) that either
fails to parse or denotes an instant at or before the current time; a
record with no expiry timestamp is never considered expired by this
check. -/
theorem c4_is_expired_iff (parse : String → Option Int) (now : Int)
    (creds : List (String × JValue)) :
    is_expired parse now creds = true ↔
      ∃ s, List.lookup "expires_at" creds = some (.str s) ∧ pyStrip s ≠ "" ∧
        (parse (pyReplaceZ (pyStrip s)) = none ∨
          ∃ t, parse (pyReplaceZ (pyStrip s)) = some t ∧ t ≤ now) := by
  constructor
  · intro h
    unfold is_expired at h
    cases hl : List.lookup "expires_at" creds with
    | none => rw [hl] at h; exact absurd h (by simp)
    | some v =>
      rw [hl] at h
      cases v with
      | str s =>
        by_cases hb : pyStrip s = ""
        · simp [hb] at h
        · refine ⟨s, rfl, hb, ?_⟩
          simp only [hb, if_neg, ite_false] at h
          cases hp : parse (pyReplaceZ (pyStrip s)) with
          | none => exact Or.inl rfl
          | some t =>
            rw [hp] at h
            exact Or.inr ⟨t, rfl, of_decide_eq_true h⟩
      | null => simp at h
      | bool b => simp at h
      | num n => simp at h
      | arr xs => simp at h
      | obj fs => simp at h
  · rintro ⟨s, hs, hnb, hp⟩
    unfold is_expired
    rw [hs]
    simp only [hnb, ite_false, if_neg]
    rcases hp with hp | ⟨t, hp, ht⟩
    · rw [hp]
    · rw [hp]; exact decide_eq_true ht

/-- C10: a record whose `expires_at` field is absent, bound to a
non-string value, or bound to a whitespace-only string is reported not
expired by `is_expired`; since `resolve_credentials` consults expiry only
through `is_expired`, such a record is never rejected as expired. -/
theorem c10_no_usable_timestamp_not_expired (parse : String → Option Int)
    (now : Int) (creds : List (String × JValue))
    (h : List.lookup "expires_at" creds = none ∨
      (∃ v, List.lookup "expires_at" creds = some v ∧ ∀ s, v ≠ .str s) ∨
      (∃ s, List.lookup "expires_at" creds = some (.str s) ∧ pyStrip s = "")) :
    is_expired parse now creds = false := by
  unfold is_expired
  rcases h with h | ⟨v, hv, hns⟩ | ⟨s, hs, hb⟩
  · rw [h]
  · rw [hv]
    cases v with
    | str s => exact absurd rfl (hns s)
    | null => rfl
    | bool b => rfl
    | num n => rfl
    | arr xs => rfl
    | obj fs => rfl
  · rw [hs]
    simp [hb]

/-- Witness for C10 at a concrete record with a numeric `expires_at`. -/
theorem c10_witness :
    is_expired (fun _ => none) 0 [("api_key", .str "k"), ("expires_at", .num 7)] = false :=
  c10_no_usable_timestamp_not_expired (fun _ => none) 0
    [("api_key", .str "k"), ("expires_at", .num 7)]
    (Or.inr (Or.inl ⟨.num 7, rfl, fun s h => by cases h⟩))

theorem dropWhile_head_false {p : Char → Bool} :
    ∀ (l : List Char) (c : Char), (l.dropWhile p).head? = some c → p c = false := by
  intro l
  induction l with
  | nil => intro c h; cases h
  | cons a t ih =>
    intro c h
    by_cases ha : p a
    · rw [List.dropWhile_cons_of_pos ha] at h
      exact ih c h
    · rw [List.dropWhile_cons_of_neg ha] at h
      cases h
      exact Bool.of_not_eq_true ha

theorem dropWhile_eq_self_of_head {p : Char → Bool} (l : List Char)
    (h : ∀ c, l.head? = some c → p c = false) : l.dropWhile p = l := by
  cases l with
  | nil => rfl
  | cons a t => exact List.dropWhile_cons_of_neg (by simp [h a rfl])

/-- `str.strip()` is idempotent. -/
theorem pyStrip_idem (s : String) : pyStrip (pyStrip s) = pyStrip s := by
  show String.mk _ = String.mk _
  unfold pyStrip
  have hr : ∀ l : List Char,
      ((l.dropWhile isPyWs).reverse.dropWhile isPyWs).reverse =
        List.rdropWhile isPyWs (l.dropWhile isPyWs) := fun _ => rfl
  rw [hr, hr]
  congr 1
  set X := s.data.dropWhile isPyWs with hX
  have hhead : ∀ c, (List.rdropWhile isPyWs X).head? = some c → isPyWs c = false := by
    intro c hc
    obtain ⟨t, ht⟩ := List.rdropWhile_prefix isPyWs X
    cases hrd : List.rdropWhile isPyWs X with
    | nil => rw [hrd] at hc; cases hc
    | cons a r =>
      rw [hrd] at hc ht
      cases hc
      have : X.head? = some c := by rw [← ht]; rfl
      exact dropWhile_head_false s.data c (hX ▸ this)
  rw [dropWhile_eq_self_of_head _ hhead]
  exact List.rdropWhile_idempotent isPyWs X

/-- `_extract_code` only returns stripped, non-empty codes. -/
theorem extract_code_spec (payload : JValue) (c : String)
    (h : extract_code payload = some c) : c ≠ "" ∧ pyStrip c = c := by
  unfold extract_code at h
  cases hl : List.lookup "code" (extract_error_object payload) with
  | none => rw [hl] at h; cases h
  | some v =>
    rw [hl] at h
    cases v with
    | str s =>
      by_cases hb : pyStrip s = ""
      · simp [hb] at h
      · simp only [hb, ite_false, if_neg, Option.some.injEq] at h
        subst h
        exact ⟨hb, pyStrip_idem s⟩
    | null => cases h
    | bool b => cases h
    | num n => cases h
    | arr xs => cases h
    | obj fs => cases h

/-- C5: a 402 response maps to action `upgrade_required`; its code is the
upstream code with `trial_quota_exhausted` rewritten to `quota_exhausted`
and defaults to `quota_exhausted`; its upgrade URL comes from the body
when present, else from the resolved credential's cached metadata. -/
theorem c5_402_classification (response : HttpResponse) (payload : JValue)
    (credentials : ResolvedCredentials) (h402 : response.status_code = 402) :
    (raise_for_error_response response payload credentials).action =
      some "upgrade_required" ∧
    (raise_for_error_response response payload credentials).code =
      some (match extract_code payload with
        | some c => if c = "trial_quota_exhausted" then "quota_exhausted" else c
        | none => "quota_exhausted") ∧
    (∀ u, extract_upgrade_url payload = some u →
      (raise_for_error_response response payload credentials).upgrade_url = .str u) ∧
    (extract_upgrade_url payload = none →
      (raise_for_error_response response payload credentials).upgrade_url =
        pyGet credentials.metadata "upgrade_url") := by
  have hbranch : raise_for_error_response response payload credentials =
      { message := extract_message payload 402,
        status_code := some 402,
        code := some (match extract_code payload with
          | some c =>
            if c ≠ "" ∧ pyStrip c ≠ "" then
              (if c = "trial_quota_exhausted" then "quota_exhausted" else c)
            else "quota_exhausted"
          | none => "quota_exhausted"),
        action := some "upgrade_required",
        upgrade_url :=
          (match extract_upgrade_url payload with
           | some u => .str u
           | none => pyGet credentials.metadata "upgrade_url"),
        retry_after_seconds := none,
        payload := payload } := by
    unfold raise_for_error_response
    rw [h402]
    rfl
  rw [hbranch]
  refine ⟨rfl, ?_, ?_, ?_⟩
  · cases hc : extract_code payload with
    | none => simp
    | some c =>
      obtain ⟨hne, hstrip⟩ := extract_code_spec payload c hc
      have hcond : (c ≠ "" ∧ pyStrip c ≠ "") := ⟨hne, by rw [hstrip]; exact hne⟩
      simp only [Option.some.injEq]
      rw [if_pos hcond]
  · intro u hu
    simp only [hu]
  · intro hu
    simp only [hu]

/-- Witness for C5: the spec's own example, a 402 body carrying
`trial_quota_exhausted` and an upgrade URL under `detail`. -/
theorem c5_witness :
    (raise_for_error_response ⟨402, none⟩
      (.obj [("detail", .obj [("code", .str "trial_quota_exhausted"),
        ("message", .str "over quota"), ("upgrade_url", .str "U")])])
      ⟨"k", "env", []⟩).action = some "upgrade_required" ∧
    (raise_for_error_response ⟨402, none⟩
      (.obj [("detail", .obj [("code", .str "trial_quota_exhausted"),
        ("message", .str "over quota"), ("upgrade_url", .str "U")])])
      ⟨"k", "env", []⟩).code = some "quota_exhausted" ∧
    (raise_for_error_response ⟨402, none⟩
      (.obj [("detail", .obj [("code", .str "trial_quota_exhausted"),
        ("message", .str "over quota"), ("upgrade_url", .str "U")])])
      ⟨"k", "env", []⟩).upgrade_url = .str "U" := by
  have h := c5_402_classification ⟨402, none⟩
    (.obj [("detail", .obj [("code", .str "trial_quota_exhausted"),
      ("message", .str "over quota"), ("upgrade_url", .str "U")])])
    ⟨"k", "env", []⟩ rfl
  exact ⟨h.1, h.2.1, h.2.2.1 "U" rfl⟩

/-- `int()` ignores surrounding whitespace, so pre-stripping the argument
does not change the result. -/
theorem pyIntParse_strip (s : String) : pyIntParse (pyStrip s) = pyIntParse s := by
  unfold pyIntParse
  rw [pyStrip_idem]

/-- The retry-after header yields a value exactly when it is present and
parses under Python `int` to a non-negative integer. -/
theorem parse_retry_after_iff (response : HttpResponse) (n : Int) :
    parse_retry_after_seconds response = some n ↔
      ∃ raw, response.retry_after = some raw ∧ pyIntParse raw = some n ∧ 0 ≤ n := by
  unfold parse_retry_after_seconds
  cases hra : response.retry_after with
  | none => simp [pyStrip_empty]
  | some raw =>
    simp only [Option.getD_some]
    by_cases hz : pyStrip raw = ""
    · rw [if_pos hz]
      constructor
      · intro h; cases h
      · rintro ⟨raw2, hr2, hp, _⟩
        cases hr2
        have hnone : pyIntParse raw = none := by
          unfold pyIntParse
          rw [hz]
        rw [hnone] at hp
        cases hp
    · rw [if_neg hz, pyIntParse_strip]
      cases hp : pyIntParse raw with
      | none =>
        simp only []
        constructor
        · intro h; cases h
        · rintro ⟨raw2, hr2, hp2, _⟩
          cases hr2
          rw [hp] at hp2
          cases hp2
      | some v =>
        show (if 0 ≤ v then some v else none) = some n ↔ _
        by_cases hv : 0 ≤ v
        · rw [if_pos hv]
          constructor
          · intro h
            injection h with hn
            exact ⟨raw, rfl, by rw [hp, hn], by rw [← hn]; exact hv⟩
          · rintro ⟨raw2, hr2, hp2, hn0⟩
            cases hr2
            rw [hp] at hp2
            exact hp2
        · rw [if_neg hv]
          constructor
          · intro h; cases h
          · rintro ⟨raw2, hr2, hp2, hn0⟩
            cases hr2
            rw [hp] at hp2
            injection hp2 with hvn
            exact absurd (hvn ▸ hn0) hv

/-- C6: a 429 response maps to action `retry_later`; its code is the
upstream code when present, else `rate_limited`; its retry-after value is
present exactly when the `Retry-After` header parses as a non-negative
integer. -/
theorem c6_429_classification (response : HttpResponse) (payload : JValue)
    (credentials : ResolvedCredentials) (h429 : response.status_code = 429) :
    (raise_for_error_response response payload credentials).action =
      some "retry_later" ∧
    (raise_for_error_response response payload credentials).code =
      some (match extract_code payload with
        | some c => c
        | none => "rate_limited") ∧
    (raise_for_error_response response payload credentials).retry_after_seconds =
      parse_retry_after_seconds response ∧
    (∀ n : Int,
      (raise_for_error_response response payload credentials).retry_after_seconds =
          some n ↔
        ∃ raw, response.retry_after = some raw ∧ pyIntParse raw = some n ∧ 0 ≤ n) := by
  have hbranch : raise_for_error_response response payload credentials =
      { message := extract_message payload 429,
        status_code := some 429,
        code := some (match extract_code payload with
          | some c => if c ≠ "" then c else "rate_limited"
          | none => "rate_limited"),
        action := some "retry_later",
        upgrade_url := .null,
        retry_after_seconds := parse_retry_after_seconds response,
        payload := payload } := by
    unfold raise_for_error_response
    rw [h429]
    rfl
  rw [hbranch]
  refine ⟨rfl, ?_, rfl, ?_⟩
  · cases hc : extract_code payload with
    | none => simp
    | some c =>
      obtain ⟨hne, _⟩ := extract_code_spec payload c hc
      simp only [Option.some.injEq]
      rw [if_pos hne]
  · intro n
    exact parse_retry_after_iff response n

/-- Witness for C6: the spec's own example, `Retry-After: 2` with a plain
string `detail` body. -/
theorem c6_witness :
    (raise_for_error_response ⟨429, some "2"⟩
      (.obj [("detail", .str "Trial rate limit exceeded")])
      ⟨"k", "env", []⟩).action = some "retry_later" ∧
    (raise_for_error_response ⟨429, some "2"⟩
      (.obj [("detail", .str "Trial rate limit exceeded")])
      ⟨"k", "env", []⟩).code = some "rate_limited" ∧
    (raise_for_error_response ⟨429, some "2"⟩
      (.obj [("detail", .str "Trial rate limit exceeded")])
      ⟨"k", "env", []⟩).retry_after_seconds = some 2 := by
  have h := c6_429_classification ⟨429, some "2"⟩
    (.obj [("detail", .str "Trial rate limit exceeded")]) ⟨"k", "env", []⟩ rfl
  exact ⟨h.1, h.2.1, h.2.2.1⟩

/-- The message-extraction chain exactly as the spec words it, for
comparison with `extract_message`: a `message`/`detail`/`error` string is
preferred only when nested under an `error` or `detail` object, then a
top-level `detail` string, then the generic message. -/
def extract_message_claimed (payload : JValue) (status_code : Nat) : String :=
  let nested : Option String :=
    match payload with
    | .obj fields =>
      match List.lookup "error" fields with
      | some (.obj o) => firstNonBlankKey o ["message", "detail", "error"]
      | _ =>
        match List.lookup "detail" fields with
        | some (.obj o) => firstNonBlankKey o ["message", "detail", "error"]
        | _ => none
    | _ => none
  match nested with
  | some m => m
  | none =>
    match payload with
    | .obj fields =>
      match List.lookup "detail" fields with
      | some (.str d) =>
        if pyStrip d = "" then "Sentinel API error " ++ toString status_code
        else pyStrip d
      | _ => "Sentinel API error " ++ toString status_code
    | _ => "Sentinel API error " ++ toString status_code

/-- The chain `extract_message` actually implements: when neither `error`
nor `detail` is an object, the same three keys are read off the body
itself before the claimed fallbacks apply. -/
def extract_message_amended (payload : JValue) (status_code : Nat) : String :=
  let nested : Option String :=
    match payload with
    | .obj fields =>
      match List.lookup "error" fields with
      | some (.obj o) => firstNonBlankKey o ["message", "detail", "error"]
      | _ =>
        match List.lookup "detail" fields with
        | some (.obj o) => firstNonBlankKey o ["message", "detail", "error"]
        | _ => firstNonBlankKey fields ["message", "detail", "error"]
    | _ => none
  match nested with
  | some m => m
  | none =>
    match payload with
    | .obj fields =>
      match List.lookup "detail" fields with
      | some (.str d) =>
        if pyStrip d = "" then "Sentinel API error " ++ toString status_code
        else pyStrip d
      | _ => "Sentinel API error " ++ toString status_code
    | _ => "Sentinel API error " ++ toString status_code

/-- Counterexample to C7 as stated: on a body with top-level `message`
and `detail` strings and no nested error object, the code returns the
`message` string where the claimed chain requires the top-level `detail`
string. -/
theorem c7_counterexample :
    extract_message (.obj [("message", .str "m"), ("detail", .str "d")]) 500 = "m" ∧
    extract_message_claimed (.obj [("message", .str "m"), ("detail", .str "d")]) 500 = "d" ∧
    ("m" : String) ≠ "d" :=
  ⟨rfl, rfl, by decide⟩

theorem firstNonBlankKey_ne_empty (eo : List (String × JValue)) :
    ∀ (ks : List String) (m : String), firstNonBlankKey eo ks = some m → m ≠ "" := by
  intro ks
  induction ks with
  | nil => intro m h; cases h
  | cons k ks ih =>
    intro m h
    unfold firstNonBlankKey at h
    cases hl : List.lookup k eo with
    | none => rw [hl] at h; exact ih m h
    | some v =>
      rw [hl] at h
      cases v with
      | str s =>
        have h2 : (if pyStrip s = "" then firstNonBlankKey eo ks
            else some (pyStrip s)) = some m := h
        by_cases hb : pyStrip s = ""
        · rw [if_pos hb] at h2; exact ih m h2
        · rw [if_neg hb] at h2; injection h2 with h2; exact h2 ▸ hb
      | null => exact ih m h
      | bool b => exact ih m h
      | num n => exact ih m h
      | arr xs => exact ih m h
      | obj fs => exact ih m h

theorem generic_message_ne_empty (status_code : Nat) :
    ("Sentinel API error " ++ toString status_code) ≠ "" := by
  intro h
  have hd : ("Sentinel API error " ++ toString status_code).data = [] :=
    congrArg String.data h
  rw [String.data_append] at hd
  exact absurd (List.append_eq_nil.mp hd).1 (by decide)

/-- C7 (amended): message extraction is total, never empty, and follows
the implemented chain: a `message`/`detail`/`error` string from the error
object — the dict under `error`, else the dict under `detail`, else the
body itself — then a top-level `detail` string, then the generic
`Sentinel API error <status>` message. -/
theorem c7_message_extraction (payload : JValue) (status_code : Nat) :
    extract_message payload status_code = extract_message_amended payload status_code ∧
    extract_message payload status_code ≠ "" := by
  have heq : extract_message payload status_code =
      extract_message_amended payload status_code := by
    unfold extract_message extract_message_amended
    cases payload with
    | obj fields =>
      dsimp only
      simp only [extract_error_object]
      cases hl : List.lookup "error" fields with
      | some v =>
        cases v with
        | obj o => rfl
        | null =>
          cases hd : List.lookup "detail" fields with
          | some w => cases w <;> rfl
          | none => rfl
        | bool b =>
          cases hd : List.lookup "detail" fields with
          | some w => cases w <;> rfl
          | none => rfl
        | num n =>
          cases hd : List.lookup "detail" fields with
          | some w => cases w <;> rfl
          | none => rfl
        | str s =>
          cases hd : List.lookup "detail" fields with
          | some w => cases w <;> rfl
          | none => rfl
        | arr xs =>
          cases hd : List.lookup "detail" fields with
          | some w => cases w <;> rfl
          | none => rfl
      | none =>
        cases hd : List.lookup "detail" fields with
        | some w => cases w <;> rfl
        | none => rfl
    | null => rfl
    | bool b => rfl
    | num n => rfl
    | str s => rfl
    | arr xs => rfl
  refine ⟨heq, ?_⟩
  unfold extract_message
  cases hm : firstNonBlankKey (extract_error_object payload)
      ["message", "detail", "error"] with
  | some m => exact firstNonBlankKey_ne_empty _ _ m hm
  | none =>
    cases payload with
    | obj fields =>
      dsimp only
      cases hd : List.lookup "detail" fields with
      | some v =>
        cases v with
        | str d =>
          show (if pyStrip d = "" then "Sentinel API error " ++ toString status_code
            else pyStrip d) ≠ ""
          by_cases hb : pyStrip d = ""
          · rw [if_pos hb]; exact generic_message_ne_empty status_code
          · rw [if_neg hb]; exact hb
        | null => exact generic_message_ne_empty status_code
        | bool b => exact generic_message_ne_empty status_code
        | num n => exact generic_message_ne_empty status_code
        | arr xs => exact generic_message_ne_empty status_code
        | obj o => exact generic_message_ne_empty status_code
      | none => exact generic_message_ne_empty status_code
    | null => exact generic_message_ne_empty status_code
    | bool b => exact generic_message_ne_empty status_code
    | num n => exact generic_message_ne_empty status_code
    | str s => exact generic_message_ne_empty status_code
    | arr xs => exact generic_message_ne_empty status_code

/-- C1: a present, non-blank static api key is returned as-is with
provenance `env`; the credential file is not read or written, the file
system is untouched, and no mint request is issued. -/
theorem c1_env_fast_path (settings : Settings) (fs : FileSys) (mint : MintResult)
    (parse : String → Option Int) (now : Int) (k : String)
    (hk : settings.api_key = some k) (hnb : pyStrip k ≠ "") :
    resolve_credentials settings fs mint parse now =
      { result := .ok
          { api_key := k, source := "env",
            metadata :=
              [("source", .str "env"),
               ("api_base_url", .str settings.api_base_url),
               ("token_base_url", .str settings.token_base_url)] },
        fs := fs, readPaths := [], writePaths := [], mintCalls := 0 } := by
  unfold resolve_credentials
  have htru : pyTruthyOptStr settings.api_key = true := by
    rw [hk]
    unfold pyTruthyOptStr
    simp [pyStrip_ne_empty_of hnb]
  rw [htru, if_pos rfl, hk]
  rfl

/-- Witness for C1 at a concrete settings value. -/
theorem c1_witness :
    resolve_credentials
      ⟨"https://api.example", "https://token.example", some "sk-live", "/home/u/.sentinel/credentials.json", false, "ua"⟩
      [] (.transportError "refused") (fun _ => none) 0 =
      { result := .ok
          { api_key := "sk-live", source := "env",
            metadata :=
              [("source", .str "env"),
               ("api_base_url", .str "https://api.example"),
               ("token_base_url", .str "https://token.example")] },
        fs := [], readPaths := [], writePaths := [], mintCalls := 0 } :=
  c1_env_fast_path
    ⟨"https://api.example", "https://token.example", some "sk-live", "/home/u/.sentinel/credentials.json", false, "ua"⟩
    [] (.transportError "refused") (fun _ => none) 0 "sk-live" rfl (by decide)

theorem lookup_assocSet_ne {β : Type} (l : List (String × β)) (k k' : String) (v : β)
    (h : k ≠ k') : List.lookup k (assocSet l k' v) = List.lookup k l := by
  have hb : (k == k') = false := beq_eq_false_iff_ne.mpr h
  induction l with
  | nil => simp [assocSet, List.lookup, hb]
  | cons p t ih =>
    obtain ⟨k0, v0⟩ := p
    unfold assocSet
    by_cases h0 : k0 = k'
    · rw [if_pos h0]
      subst h0
      simp [List.lookup, hb]
    · rw [if_neg h0]
      by_cases hk0 : k = k0
      · subst hk0
        simp [List.lookup]
      · have hb0 : (k == k0) = false := beq_eq_false_iff_ne.mpr hk0
        simp [List.lookup, hb0, ih]

theorem lookup_assocSet_self {β : Type} (l : List (String × β)) (k : String) (v : β) :
    List.lookup k (assocSet l k v) = some v := by
  induction l with
  | nil => simp [assocSet, List.lookup]
  | cons p t ih =>
    obtain ⟨k0, v0⟩ := p
    unfold assocSet
    by_cases h0 : k0 = k
    · rw [if_pos h0]
      subst h0
      simp [List.lookup]
    · rw [if_neg h0]
      have hb0 : (k == k0) = false := beq_eq_false_iff_ne.mpr (fun he => h0 he.symm)
      simp [List.lookup, hb0, ih]

/-- A minted record always carries a non-blank api key: `fetch_trial_key`
rejects everything else, and the base-URL stamping touches other keys. -/
theorem fetch_trial_key_ok_key (settings : Settings) (mint : MintResult)
    (m : List (String × JValue)) (h : fetch_trial_key settings mint = .ok m) :
    ∃ k, List.lookup "api_key" m = some (.str k) ∧ pyStrip k ≠ "" := by
  cases mint with
  | transportError msg => cases h
  | httpResponse status body =>
    unfold fetch_trial_key at h
    dsimp only at h
    by_cases hs : 400 ≤ status ∧ status ≤ 599
    · rw [if_pos hs] at h; cases h
    · rw [if_neg hs] at h
      cases hp : (match jsonLoads body with
        | some j => j
        | none => .obj [("raw_text", .str body)] : JValue) with
      | obj fields =>
        rw [hp] at h
        dsimp only at h
        cases hl : List.lookup "api_key" fields with
        | none => rw [hl] at h; cases h
        | some v =>
          rw [hl] at h
          cases v with
          | str k =>
            dsimp only at h
            by_cases hb : pyStrip k = ""
            · rw [if_pos hb] at h; cases h
            · rw [if_neg hb] at h
              injection h with h
              refine ⟨k, ?_, hb⟩
              rw [← h]
              rw [lookup_assocSet_ne _ _ _ _ (by decide),
                lookup_assocSet_ne _ _ _ _ (by decide)]
              exact hl
          | null => cases h
          | bool b => cases h
          | num n => cases h
          | arr xs => cases h
          | obj o => cases h
      | null => rw [hp] at h; cases h
      | bool b => rw [hp] at h; cases h
      | num n => rw [hp] at h; cases h
      | str s => rw [hp] at h; cases h
      | arr xs => rw [hp] at h; cases h

/-- A validated record has a non-blank string api key. -/
theorem validate_spec (creds : List (String × JValue))
    (h : validate_cached_credentials creds = true) :
    ∃ s, List.lookup "api_key" creds = some (.str s) ∧ pyStrip s ≠ "" := by
  unfold validate_cached_credentials at h
  cases hl : List.lookup "api_key" creds with
  | none => rw [hl] at h; cases h
  | some v =>
    rw [hl] at h
    cases v with
    | str s => exact ⟨s, rfl, by simpa using h⟩
    | null => cases h
    | bool b => cases h
    | num n => cases h
    | arr xs => cases h
    | obj o => cases h

/-- An accepted cached record satisfies all four checks and is the loaded
record itself. -/
theorem usableCachedRecord_spec (fs : FileSys) (settings : Settings)
    (parse : String → Option Int) (now : Int) (cached : List (String × JValue))
    (h : usableCachedRecord fs settings parse now = some cached) :
    load_cached_credentials fs settings.credentials_path = some cached ∧
    cached.isEmpty = false ∧ validate_cached_credentials cached = true ∧
    is_expired parse now cached = false ∧
    bases_match cached settings.api_base_url settings.token_base_url = true := by
  unfold usableCachedRecord at h
  cases hload : load_cached_credentials fs settings.credentials_path with
  | none => rw [hload] at h; cases h
  | some c =>
    rw [hload] at h
    dsimp only at h
    by_cases hc : (!c.isEmpty : Bool) = true ∧ validate_cached_credentials c = true ∧
        is_expired parse now c = false ∧
        bases_match c settings.api_base_url settings.token_base_url = true
    · rw [if_pos hc] at h
      injection h with h
      subst h
      exact ⟨rfl, by simpa using hc.1, hc.2.1, hc.2.2.1, hc.2.2.2⟩
    · rw [if_neg hc] at h
      cases h

/-- Counterexample to C8 as stated: with a static api key that is a blank
but non-empty string (producible by constructing `Settings` directly,
though not by `load_settings`, which strips the environment value),
resolution succeeds with a blank key. -/
theorem c8_counterexample :
    (resolve_credentials ⟨"https://a", "https://t", some " ", "p", false, "ua"⟩ []
        (.transportError "x") (fun _ => none) 0).result =
      Except.ok
        { api_key := " ", source := "env",
          metadata := [("source", .str "env"), ("api_base_url", .str "https://a"),
            ("token_base_url", .str "https://t")] } ∧
    pyStrip " " = "" :=
  ⟨rfl, rfl⟩

/-- C8 (amended): whenever the static api key, if present, is non-blank —
as `load_settings` guarantees — a successful resolution returns a
non-blank api key, for every cache and issuer state. -/
theorem c8_nonblank_key (settings : Settings) (fs : FileSys) (mint : MintResult)
    (parse : String → Option Int) (now : Int) (r : ResolvedCredentials)
    (hk : ∀ k, settings.api_key = some k → pyStrip k ≠ "")
    (hres : (resolve_credentials settings fs mint parse now).result = .ok r) :
    pyStrip r.api_key ≠ "" := by
  unfold resolve_credentials at hres
  by_cases ht : pyTruthyOptStr settings.api_key = true
  · rw [if_pos ht] at hres
    cases hset : settings.api_key with
    | none => rw [hset] at ht; cases ht
    | some k =>
      have h2 : (Except.ok
          { api_key := settings.api_key.getD "", source := "env",
            metadata :=
              [("source", .str "env"),
               ("api_base_url", .str settings.api_base_url),
               ("token_base_url", .str settings.token_base_url) ] } :
          Except String ResolvedCredentials) = .ok r := hres
      injection h2 with h2
      rw [← h2, hset]
      exact hk k hset
  · rw [if_neg ht] at hres
    unfold resolveLocked at hres
    cases hcache : usableCachedRecord fs settings parse now with
    | some cached =>
      rw [hcache] at hres
      have hval := (usableCachedRecord_spec fs settings parse now cached hcache).2.2.1
      obtain ⟨s, hs, hnb⟩ := validate_spec cached hval
      injection hres with hres
      rw [← hres]
      show pyStrip (pyStr (pyGet cached "api_key")) ≠ ""
      rw [pyGet, hs]
      exact hnb
    | none =>
      rw [hcache] at hres
      by_cases hnt : settings.no_trial = true
      · rw [if_pos hnt] at hres; cases hres
      · rw [if_neg hnt] at hres
        cases hfetch : fetch_trial_key settings mint with
        | error e => rw [hfetch] at hres; cases hres
        | ok m =>
          rw [hfetch] at hres
          obtain ⟨k, hkm, hnb⟩ := fetch_trial_key_ok_key settings mint m hfetch
          injection hres with hres
          rw [← hres]
          show pyStrip (pyStr (pyGet m "api_key")) ≠ ""
          rw [pyGet, hkm]
          exact hnb

/-- Witness for the amended C8 at a concrete resolution through the env
path. -/
theorem c8_witness :
    pyStrip (ResolvedCredentials.mk "sk" "env"
      [("source", .str "env"), ("api_base_url", .str "https://a"),
       ("token_base_url", .str "https://t")]).api_key ≠ "" :=
  c8_nonblank_key ⟨"https://a", "https://t", some "sk", "p", false, "ua"⟩ []
    (.transportError "x") (fun _ => none) 0 _
    (fun k hkeq => by cases hkeq; decide) rfl

theorem strOrEmpty_str (a : String) : strOrEmpty (.str a) = a := by
  unfold strOrEmpty jTruthy
  by_cases ha : a = ""
  · subst ha; simp
  · simp [ha, pyStr]

/-- C2: with no static key, a cached record that is a non-empty JSON
object with a non-blank api key, unexpired, and matching both base URLs
after trailing-slash stripping, is returned with provenance `cache`; the
trial issuer is not invoked and nothing is written. -/
theorem c2_cache_hit (settings : Settings) (fs : FileSys) (mint : MintResult)
    (parse : String → Option Int) (now : Int) (txt : String)
    (cached : List (String × JValue)) (k a t : String)
    (hns : pyTruthyOptStr settings.api_key = false)
    (htxt : List.lookup settings.credentials_path fs = some txt)
    (hjson : jsonLoads txt = some (.obj cached))
    (hkey : List.lookup "api_key" cached = some (.str k))
    (hnb : pyStrip k ≠ "")
    (hexp : is_expired parse now cached = false)
    (ha : List.lookup "api_base_url" cached = some (.str a))
    (ha2 : rstripSlash a = rstripSlash settings.api_base_url)
    (ht : List.lookup "token_base_url" cached = some (.str t))
    (ht2 : rstripSlash t = rstripSlash settings.token_base_url) :
    resolve_credentials settings fs mint parse now =
      { result := .ok
          { api_key := k, source := "cache",
            metadata := assocSet cached "source" (.str "cache") },
        fs := fs, readPaths := [settings.credentials_path], writePaths := [],
        mintCalls := 0 } := by
  have hload : load_cached_credentials fs settings.credentials_path = some cached := by
    unfold load_cached_credentials
    rw [htxt]
    dsimp only
    rw [hjson]
  have hne : cached.isEmpty = false := by
    cases cached with
    | nil => cases hkey
    | cons p rest => rfl
  have hval : validate_cached_credentials cached = true := by
    unfold validate_cached_credentials
    rw [hkey]
    exact decide_eq_true hnb
  have hbm : bases_match cached settings.api_base_url settings.token_base_url = true := by
    unfold bases_match
    apply decide_eq_true
    constructor
    · rw [pyGet, ha]
      show rstripSlash (strOrEmpty (.str a)) = rstripSlash settings.api_base_url
      rw [strOrEmpty_str]
      exact ha2
    · rw [pyGet, ht]
      show rstripSlash (strOrEmpty (.str t)) = rstripSlash settings.token_base_url
      rw [strOrEmpty_str]
      exact ht2
  have husable : usableCachedRecord fs settings parse now = some cached := by
    unfold usableCachedRecord
    rw [hload]
    dsimp only
    rw [if_pos ⟨by rw [hne]; rfl, hval, hexp, hbm⟩]
  have hkeyval : pyStr (pyGet cached "api_key") = k := by
    rw [pyGet, hkey]
    rfl
  unfold resolve_credentials
  rw [hns, if_neg (by decide : ¬(false = true))]
  unfold resolveLocked
  rw [husable]
  dsimp only
  rw [hkeyval]

/-- Witness for C2: a concrete cached record accepted as-is. -/
theorem c2_witness :
    resolve_credentials ⟨"https://a", "https://t", none, "p", false, "ua"⟩
      [("p", "\x7b\"api_key\": \"ck\", \"api_base_url\": \"https://a\", \"token_base_url\": \"https://t\"\x7d")]
      (.transportError "x") (fun _ => none) 0 =
      { result := .ok
          { api_key := "ck", source := "cache",
            metadata :=
              [("api_key", .str "ck"), ("api_base_url", .str "https://a"),
               ("token_base_url", .str "https://t"), ("source", .str "cache")] },
        fs := [("p", "\x7b\"api_key\": \"ck\", \"api_base_url\": \"https://a\", \"token_base_url\": \"https://t\"\x7d")],
        readPaths := ["p"], writePaths := [], mintCalls := 0 } :=
  c2_cache_hit ⟨"https://a", "https://t", none, "p", false, "ua"⟩
    [("p", "\x7b\"api_key\": \"ck\", \"api_base_url\": \"https://a\", \"token_base_url\": \"https://t\"\x7d")]
    (.transportError "x") (fun _ => none) 0
    "\x7b\"api_key\": \"ck\", \"api_base_url\": \"https://a\", \"token_base_url\": \"https://t\"\x7d"
    [("api_key", .str "ck"), ("api_base_url", .str "https://a"),
     ("token_base_url", .str "https://t")]
    "ck" "https://a" "https://t"
    rfl rfl rfl rfl (by decide) rfl rfl rfl rfl rfl

/-- The record written by `save_cached_credentials` is found at the target
path afterwards, whatever was there before. -/
theorem save_lookup (fs : FileSys) (path : String) (payload : List (String × JValue)) :
    List.lookup path (save_cached_credentials fs path payload) =
      some (jsonDumps (.obj payload)) :=
  lookup_assocSet_self _ _ _

/-- C3: with no static key and no usable cached record, resolution fails
with `CredentialResolutionError` and writes nothing when `no_trial` is
set; otherwise it issues one mint request and, when the mint succeeds,
persists the minted record to the credentials path (overwriting any prior
record) and returns its key with provenance `trial`. -/
theorem c3_miss_mints_or_fails (settings : Settings) (fs : FileSys)
    (mint : MintResult) (parse : String → Option Int) (now : Int)
    (hns : pyTruthyOptStr settings.api_key = false)
    (hmiss : usableCachedRecord fs settings parse now = none) :
    (settings.no_trial = true →
      resolve_credentials settings fs mint parse now =
        { result := .error
            "SENTINEL_API_KEY is not set and auto-trial is disabled (SENTINEL_NO_TRIAL=1).",
          fs := fs, readPaths := [settings.credentials_path], writePaths := [],
          mintCalls := 0 }) ∧
    (settings.no_trial = false →
      ∀ m, fetch_trial_key settings mint = .ok m →
        resolve_credentials settings fs mint parse now =
          { result := .ok
              { api_key := pyStr (pyGet m "api_key"), source := "trial",
                metadata := assocSet m "source" (.str "trial") },
            fs := save_cached_credentials fs settings.credentials_path m,
            readPaths := [settings.credentials_path],
            writePaths := [settings.credentials_path], mintCalls := 1 } ∧
        List.lookup settings.credentials_path
            (save_cached_credentials fs settings.credentials_path m) =
          some (jsonDumps (.obj m))) := by
  have hbase : resolve_credentials settings fs mint parse now =
      resolveLocked settings fs mint parse now := by
    unfold resolve_credentials
    rw [hns, if_neg (by decide : ¬(false = true))]
  constructor
  · intro hnt
    rw [hbase]
    unfold resolveLocked
    rw [hmiss]
    dsimp only
    rw [hnt, if_pos rfl]
  · intro hnt m hm
    refine ⟨?_, save_lookup fs settings.credentials_path m⟩
    rw [hbase]
    unfold resolveLocked
    rw [hmiss]
    dsimp only
    rw [hnt, if_neg (by decide : ¬(false = true)), hm]

/-- Witness for C3 through the successful-mint branch at a concrete empty
cache. -/
theorem c3_witness :
    resolve_credentials ⟨"https://a", "https://t", none, "p", false, "ua"⟩ []
      (.httpResponse 200 "\x7b\"api_key\": \"tk\"\x7d") (fun _ => none) 0 =
      { result := .ok
          { api_key := pyStr (pyGet
              [("api_key", .str "tk"), ("api_base_url", .str "https://a"),
               ("token_base_url", .str "https://t")] "api_key"),
            source := "trial",
            metadata := assocSet
              [("api_key", .str "tk"), ("api_base_url", .str "https://a"),
               ("token_base_url", .str "https://t")] "source" (.str "trial") },
        fs := save_cached_credentials [] "p"
          [("api_key", .str "tk"), ("api_base_url", .str "https://a"),
           ("token_base_url", .str "https://t")],
        readPaths := ["p"], writePaths := ["p"], mintCalls := 1 } ∧
    List.lookup "p" (save_cached_credentials [] "p"
        [("api_key", .str "tk"), ("api_base_url", .str "https://a"),
         ("token_base_url", .str "https://t")]) =
      some (jsonDumps (.obj
        [("api_key", .str "tk"), ("api_base_url", .str "https://a"),
         ("token_base_url", .str "https://t")])) :=
  (c3_miss_mints_or_fails ⟨"https://a", "https://t", none, "p", false, "ua"⟩ []
    (.httpResponse 200 "\x7b\"api_key\": \"tk\"\x7d") (fun _ => none) 0
    rfl rfl).2 rfl
    [("api_key", .str "tk"), ("api_base_url", .str "https://a"),
     ("token_base_url", .str "https://t")] rfl

theorem char_toNat_valid (c : Char) :
    c.toNat < 55296 ∨ (57343 < c.toNat ∧ c.toNat < 1114112) := by
  rcases c.valid with h | ⟨h1, h2⟩
  · exact Or.inl h
  · exact Or.inr ⟨h1, h2⟩

theorem hexVal_toHexDigit : ∀ k, k < 16 → hexDigitVal (toHexDigit k) = some k := by
  decide

theorem hex4Val_hex4chars (n : Nat) (h : n ≤ 65535) :
    hex4Val (toHexDigit (n / 4096 % 16)) (toHexDigit (n / 256 % 16))
      (toHexDigit (n / 16 % 16)) (toHexDigit (n % 16)) = some n := by
  unfold hex4Val
  rw [hexVal_toHexDigit _ (Nat.mod_lt _ (by omega)),
    hexVal_toHexDigit _ (Nat.mod_lt _ (by omega)),
    hexVal_toHexDigit _ (Nat.mod_lt _ (by omega)),
    hexVal_toHexDigit _ (Nat.mod_lt _ (by omega))]
  show some _ = some n
  congr 1
  omega

theorem string_mk_data (s : String) : String.mk s.data = s := rfl


theorem encodeChar_length_pos (c : Char) : 1 ≤ (encodeChar c).length := by
  unfold encodeChar
  dsimp only
  split_ifs <;> simp

theorem encodeChars_length_ge : ∀ cs : List Char, cs.length ≤ (encodeChars cs).length := by
  intro cs
  induction cs with
  | nil => simp [encodeChars]
  | cons c cs ih =>
    show (c :: cs).length ≤ (encodeChar c ++ encodeChars cs).length
    rw [List.length_append, List.length_cons]
    have := encodeChar_length_pos c
    omega

theorem decodeStrAux_quote (f : Nat) (r : List Char) :
    decodeStrAux (f + 1) (quoteChar :: r) = some ([], r) := rfl

theorem decodeStrAux_plain (f : Nat) (c : Char) (r : List Char)
    (h1 : c ≠ quoteChar) (h2 : c ≠ backslashChar) :
    decodeStrAux (f + 1) (c :: r) = (decodeStrAux f r).map (consFst c) := by
  conv_lhs => unfold decodeStrAux
  dsimp only
  rw [if_neg h1, if_neg h2]

theorem decodeStrAux_esc (f : Nat) (r r2 : List Char) (ch : Char)
    (h : decodeEsc r = some (ch, r2)) :
    decodeStrAux (f + 1) (backslashChar :: r) =
      (decodeStrAux f r2).map (consFst ch) := by
  conv_lhs => unfold decodeStrAux
  dsimp only
  rw [if_neg (by decide), if_pos rfl, h]

theorem decodeEsc_u (h1 h2 h3 h4 : Char) (rest3 : List Char) :
    decodeEsc ('u' :: h1 :: h2 :: h3 :: h4 :: rest3) =
      (match hex4Val h1 h2 h3 h4 with
       | none => none
       | some n =>
         if 55296 ≤ n ∧ n ≤ 56319 then
           (match rest3 with
            | b1 :: u2 :: h5 :: h6 :: h7 :: h8 :: rest4 =>
              if b1 = backslashChar ∧ u2 = 'u' then
                (match hex4Val h5 h6 h7 h8 with
                 | none => none
                 | some m =>
                   if 56320 ≤ m ∧ m ≤ 57343 then
                     some (Char.ofNat (65536 + (n - 55296) * 1024 + (m - 56320)), rest4)
                   else none)
              else none
            | _ => none)
         else
           (match charFromNat n with
            | none => none
            | some ch => some (ch, rest3))) := rfl

theorem decodeEsc_u_bmp (n : Nat) (hle : n ≤ 65535) (hval : n < 55296 ∨ 57343 < n)
    (r : List Char) :
    decodeEsc ('u' :: (hex4chars n ++ r)) = some (Char.ofNat n, r) := by
  have hshape : 'u' :: (hex4chars n ++ r) =
      'u' :: toHexDigit (n / 4096 % 16) :: toHexDigit (n / 256 % 16) ::
        toHexDigit (n / 16 % 16) :: toHexDigit (n % 16) :: r := by
    simp [hex4chars]
  rw [hshape, decodeEsc_u, hex4Val_hex4chars n hle]
  dsimp only
  rw [if_neg (by omega)]
  have hfrom : charFromNat n = some (Char.ofNat n) := by
    unfold charFromNat
    rw [if_pos (by omega)]
  rw [hfrom]

theorem decodeEsc_u_pair (n : Nat) (hge : 65536 ≤ n) (hlt : n < 1114112)
    (r : List Char) :
    decodeEsc ('u' :: (hex4chars (55296 + (n - 65536) / 1024) ++
      (backslashChar :: 'u' :: (hex4chars (56320 + (n - 65536) % 1024) ++ r)))) =
      some (Char.ofNat n, r) := by
  set hi := 55296 + (n - 65536) / 1024 with hhi
  set lo := 56320 + (n - 65536) % 1024 with hlo
  have hhib : hi ≤ 65535 := by omega
  have hlob : lo ≤ 65535 := by omega
  have hs1 : 55296 ≤ hi := by omega
  have hs2 : hi ≤ 56319 := by omega
  have hs3 : 56320 ≤ lo := by omega
  have hs4 : lo ≤ 57343 := by omega
  have hshape : 'u' :: (hex4chars hi ++
      (backslashChar :: 'u' :: (hex4chars lo ++ r))) =
      'u' :: toHexDigit (hi / 4096 % 16) :: toHexDigit (hi / 256 % 16) ::
        toHexDigit (hi / 16 % 16) :: toHexDigit (hi % 16) ::
        (backslashChar :: 'u' :: toHexDigit (lo / 4096 % 16) ::
          toHexDigit (lo / 256 % 16) :: toHexDigit (lo / 16 % 16) ::
          toHexDigit (lo % 16) :: r) := by
    simp [hex4chars]
  rw [hshape, decodeEsc_u, hex4Val_hex4chars hi hhib]
  dsimp only
  rw [if_pos ⟨hs1, hs2⟩]
  try dsimp only
  rw [if_pos (⟨rfl, rfl⟩ : backslashChar = backslashChar ∧ ('u' : Char) = 'u')]
  rw [hex4Val_hex4chars lo hlob]
  try dsimp only
  rw [if_pos ⟨hs3, hs4⟩]
  have harith : 65536 + (hi - 55296) * 1024 + (lo - 56320) = n := by omega
  rw [harith]

theorem decode_encodeChars : ∀ (cs rest : List Char) (f : Nat), cs.length < f →
    decodeStrAux f (encodeChars cs ++ (quoteChar :: rest)) = some (cs, rest) := by
  intro cs
  induction cs with
  | nil =>
    intro rest f hf
    cases f with
    | zero => omega
    | succ f' => exact decodeStrAux_quote f' rest
  | cons c cs ih =>
    intro rest f hf
    cases f with
    | zero => omega
    | succ f' =>
    have hf' : cs.length < f' := by
      have : (c :: cs).length = cs.length + 1 := rfl
      omega
    have hstep : encodeChars (c :: cs) ++ (quoteChar :: rest) =
        encodeChar c ++ (encodeChars cs ++ (quoteChar :: rest)) := by
      show (encodeChar c ++ encodeChars cs) ++ _ = _
      rw [List.append_assoc]
    rw [hstep]
    set tail := encodeChars cs ++ (quoteChar :: rest) with htail
    unfold encodeChar
    by_cases h1 : c = quoteChar
    · rw [if_pos h1]
      show decodeStrAux (f' + 1) (backslashChar :: (quoteChar :: tail)) = _
      rw [decodeStrAux_esc f' (quoteChar :: tail) tail quoteChar rfl, ih rest f' hf']
      rw [h1]
      rfl
    · rw [if_neg h1]
      by_cases h2 : c = backslashChar
      · rw [if_pos h2]
        show decodeStrAux (f' + 1) (backslashChar :: (backslashChar :: tail)) = _
        rw [decodeStrAux_esc f' (backslashChar :: tail) tail backslashChar rfl,
          ih rest f' hf']
        rw [h2]
        rfl
      · rw [if_neg h2]
        by_cases h3 : c.toNat = 10
        · rw [if_pos h3]
          show decodeStrAux (f' + 1) (backslashChar :: ('n' :: tail)) = _
          rw [decodeStrAux_esc f' ('n' :: tail) tail (Char.ofNat 10) rfl, ih rest f' hf']
          rw [show Char.ofNat 10 = c by rw [← h3, Char.ofNat_toNat]]
          rfl
        · rw [if_neg h3]
          by_cases h4 : c.toNat = 13
          · rw [if_pos h4]
            show decodeStrAux (f' + 1) (backslashChar :: ('r' :: tail)) = _
            rw [decodeStrAux_esc f' ('r' :: tail) tail (Char.ofNat 13) rfl, ih rest f' hf']
            rw [show Char.ofNat 13 = c by rw [← h4, Char.ofNat_toNat]]
            rfl
          · rw [if_neg h4]
            by_cases h5 : c.toNat = 9
            · rw [if_pos h5]
              show decodeStrAux (f' + 1) (backslashChar :: ('t' :: tail)) = _
              rw [decodeStrAux_esc f' ('t' :: tail) tail (Char.ofNat 9) rfl, ih rest f' hf']
              rw [show Char.ofNat 9 = c by rw [← h5, Char.ofNat_toNat]]
              rfl
            · rw [if_neg h5]
              by_cases h6 : c.toNat = 8
              · rw [if_pos h6]
                show decodeStrAux (f' + 1) (backslashChar :: ('b' :: tail)) = _
                rw [decodeStrAux_esc f' ('b' :: tail) tail (Char.ofNat 8) rfl, ih rest f' hf']
                rw [show Char.ofNat 8 = c by rw [← h6, Char.ofNat_toNat]]
                rfl
              · rw [if_neg h6]
                by_cases h7 : c.toNat = 12
                · rw [if_pos h7]
                  show decodeStrAux (f' + 1) (backslashChar :: ('f' :: tail)) = _
                  rw [decodeStrAux_esc f' ('f' :: tail) tail (Char.ofNat 12) rfl, ih rest f' hf']
                  rw [show Char.ofNat 12 = c by rw [← h7, Char.ofNat_toNat]]
                  rfl
                · rw [if_neg h7]
                  by_cases h8 : 32 ≤ c.toNat ∧ c.toNat ≤ 126
                  · rw [if_pos h8]
                    show decodeStrAux (f' + 1) (c :: tail) = _
                    rw [decodeStrAux_plain f' c tail h1 h2, ih rest f' hf']
                    rfl
                  · rw [if_neg h8]
                    by_cases h9 : c.toNat ≤ 65535
                    · rw [if_pos h9]
                      have hval := char_toNat_valid c
                      show decodeStrAux (f' + 1)
                        (backslashChar :: ('u' :: (hex4chars c.toNat ++ tail))) = _
                      rw [decodeStrAux_esc f' _ tail (Char.ofNat c.toNat)
                        (decodeEsc_u_bmp c.toNat h9 (by omega) tail), ih rest f' hf']
                      rw [Char.ofNat_toNat]
                      rfl
                    · rw [if_neg h9]
                      have hval := char_toNat_valid c
                      have hge : 65536 ≤ c.toNat := by omega
                      have hlt : c.toNat < 1114112 := by omega
                      have hshape : ((backslashChar :: 'u' :: hex4chars (55296 + (c.toNat - 65536) / 1024)) ++
                          (backslashChar :: 'u' :: hex4chars (56320 + (c.toNat - 65536) % 1024))) ++ tail =
                          backslashChar :: ('u' :: (hex4chars (55296 + (c.toNat - 65536) / 1024) ++
                            (backslashChar :: 'u' :: (hex4chars (56320 + (c.toNat - 65536) % 1024) ++ tail)))) := by
                        simp [List.append_assoc]
                      rw [hshape]
                      rw [decodeStrAux_esc f' _ tail (Char.ofNat c.toNat)
                        (decodeEsc_u_pair c.toNat hge hlt tail), ih rest f' hf']
                      rw [Char.ofNat_toNat]
                      rfl

theorem digitVal_ofNat : ∀ k, k < 10 → digitVal (Char.ofNat (48 + k)) = k := by
  decide

theorem digitCharFacts : ∀ k, k < 10 →
    (Char.ofNat (48 + k)).isDigit = true ∧ jsonWs (Char.ofNat (48 + k)) = false ∧
    Char.ofNat (48 + k) ≠ '-' ∧ Char.ofNat (48 + k) ≠ quoteChar ∧
    Char.ofNat (48 + k) ≠ lbrackChar ∧ Char.ofNat (48 + k) ≠ lbraceChar ∧
    Char.ofNat (48 + k) ≠ 'n' ∧ Char.ofNat (48 + k) ≠ 't' ∧
    Char.ofNat (48 + k) ≠ 'f' ∧ Char.ofNat (48 + k) ≠ rbrackChar ∧
    Char.ofNat (48 + k) ≠ rbraceChar ∧ Char.ofNat (48 + k) ≠ ',' := by
  decide

theorem digitsToNat_append_single (xs : List Char) (d : Char) :
    digitsToNat (xs ++ [d]) = digitsToNat xs * 10 + digitVal d := by
  unfold digitsToNat
  rw [List.foldl_append]
  rfl

theorem natDigits_spec : ∀ (fuel n : Nat), n < fuel →
    natDigits fuel n ≠ [] ∧
    (∀ c ∈ natDigits fuel n, ∃ k, k < 10 ∧ c = Char.ofNat (48 + k)) ∧
    digitsToNat (natDigits fuel n) = n := by
  intro fuel
  induction fuel with
  | zero => intro n h; omega
  | succ f ih =>
    intro n h
    unfold natDigits
    by_cases hn : n < 10
    · rw [if_pos hn]
      refine ⟨by simp, ?_, ?_⟩
      · intro c hc
        simp only [List.mem_singleton] at hc
        exact ⟨n, hn, hc⟩
      · show digitsToNat ([] ++ [Char.ofNat (48 + n)]) = n
        rw [digitsToNat_append_single]
        show 0 * 10 + digitVal (Char.ofNat (48 + n)) = n
        rw [digitVal_ofNat n hn]
        omega
    · rw [if_neg hn]
      have hrec := ih (n / 10) (by omega)
      refine ⟨by simp [hrec.1], ?_, ?_⟩
      · intro c hc
        rcases List.mem_append.mp hc with hc | hc
        · exact hrec.2.1 c hc
        · simp only [List.mem_singleton] at hc
          exact ⟨n % 10, by omega, hc⟩
      · rw [digitsToNat_append_single, hrec.2.2, digitVal_ofNat _ (by omega)]
        omega

/-- What may legally follow a serialized number so that maximal-munch
digit parsing stops exactly at the boundary. -/
def numSafe : List Char → Prop
  | [] => True
  | c :: _ => c.isDigit = false ∧ c ≠ '.' ∧ c ≠ 'e' ∧ c ≠ 'E'

theorem digits_span : ∀ (ds rest : List Char), (∀ c ∈ ds, c.isDigit = true) →
    (∀ c, rest.head? = some c → c.isDigit = false) →
    (ds ++ rest).takeWhile Char.isDigit = ds ∧
    (ds ++ rest).dropWhile Char.isDigit = rest := by
  intro ds
  induction ds with
  | nil =>
    intro rest _ hrest
    cases rest with
    | nil => exact ⟨rfl, rfl⟩
    | cons c t =>
      constructor
      · show List.takeWhile Char.isDigit (c :: t) = []
        rw [List.takeWhile_cons, hrest c rfl]
        simp
      · show List.dropWhile Char.isDigit (c :: t) = c :: t
        rw [List.dropWhile_cons, hrest c rfl]
        simp
  | cons d ds ih =>
    intro rest hds hrest
    have hd : d.isDigit = true := hds d (List.mem_cons_self d ds)
    have hih := ih rest (fun c hc => hds c (List.mem_cons_of_mem d hc)) hrest
    constructor
    · show List.takeWhile Char.isDigit (d :: (ds ++ rest)) = d :: ds
      rw [List.takeWhile_cons, hd]
      simp [hih.1]
    · show List.dropWhile Char.isDigit (d :: (ds ++ rest)) = rest
      rw [List.dropWhile_cons, hd]
      simp [hih.2]

theorem parseDigits_encNat (n : Nat) (rest : List Char) (hrest : numSafe rest) :
    parseDigits (encNat n ++ rest) = some (n, rest) := by
  obtain ⟨hne, hdigs, hval⟩ := natDigits_spec (n + 1) n (by omega)
  have hdig : ∀ c ∈ encNat n, c.isDigit = true := by
    intro c hc
    obtain ⟨k, hk, hck⟩ := hdigs c hc
    rw [hck]
    exact (digitCharFacts k hk).1
  have hrh : ∀ c, rest.head? = some c → c.isDigit = false := by
    intro c hc
    cases rest with
    | nil => cases hc
    | cons r t =>
      cases hc
      exact hrest.1
  have hspan := digits_span (encNat n) rest hdig hrh
  have hne2 : encNat n ≠ [] := hne
  have hval2 : digitsToNat (encNat n) = n := hval
  have hempty : (encNat n).isEmpty = false := by
    cases hh : encNat n with
    | nil => exact absurd hh hne2
    | cons a b => rfl
  unfold parseDigits
  rw [hspan.1, hspan.2]
  dsimp only
  rw [hempty, if_neg (by decide : ¬(false = true))]
  cases rest with
  | nil =>
    dsimp only
    rw [hval2]
  | cons c t =>
    dsimp only
    rw [if_neg (by
      rintro (h | h | h)
      · exact hrest.2.1 h
      · exact hrest.2.2.1 h
      · exact hrest.2.2.2 h), hval2]

theorem encNat_shape (n : Nat) :
    ∃ k tail, k < 10 ∧ encNat n = Char.ofNat (48 + k) :: tail := by
  obtain ⟨hne, hdigs, _⟩ := natDigits_spec (n + 1) n (by omega)
  have hne2 : encNat n ≠ [] := hne
  have hdigs2 : ∀ c ∈ encNat n, ∃ k, k < 10 ∧ c = Char.ofNat (48 + k) := hdigs
  cases hh : encNat n with
  | nil => exact absurd hh hne2
  | cons c tail =>
    obtain ⟨k, hk, hck⟩ := hdigs2 c (by rw [hh]; exact List.mem_cons_self c tail)
    refine ⟨k, tail, hk, ?_⟩
    rw [hck]

theorem parseNum_encInt (i : Int) (rest : List Char) (hrest : numSafe rest) :
    parseNum (encInt i ++ rest) = some (i, rest) := by
  unfold encInt
  by_cases hneg : i < 0
  · rw [if_pos hneg]
    show parseNum ('-' :: (encNat i.natAbs ++ rest)) = _
    unfold parseNum
    dsimp only
    rw [if_pos rfl, parseDigits_encNat i.natAbs rest hrest]
    show some (-(i.natAbs : Int), rest) = some (i, rest)
    have habs : -(i.natAbs : Int) = i := by omega
    rw [habs]
  · rw [if_neg hneg]
    obtain ⟨k, tail, hk, hshape⟩ := encNat_shape i.toNat
    rw [hshape]
    show parseNum (Char.ofNat (48 + k) :: (tail ++ rest)) = _
    unfold parseNum
    dsimp only
    rw [if_neg (digitCharFacts k hk).2.2.1]
    rw [show Char.ofNat (48 + k) :: (tail ++ rest) =
      (Char.ofNat (48 + k) :: tail) ++ rest from rfl]
    rw [← hshape, parseDigits_encNat i.toNat rest hrest]
    show some ((i.toNat : Int), rest) = some (i, rest)
    have habs : ((i.toNat : Int)) = i := by omega
    rw [habs]

theorem skipWs_ws_prefix : ∀ (l x : List Char), (∀ c ∈ l, jsonWs c = true) →
    skipWs (l ++ x) = skipWs x := by
  intro l
  induction l with
  | nil => intro x _; rfl
  | cons c t ih =>
    intro x h
    show List.dropWhile jsonWs (c :: (t ++ x)) = _
    rw [List.dropWhile_cons, h c (List.mem_cons_self c t)]
    exact ih x (fun c hc => h c (List.mem_cons_of_mem _ hc))

theorem skipWs_cons_false (c : Char) (x : List Char) (h : jsonWs c = false) :
    skipWs (c :: x) = c :: x := by
  show List.dropWhile jsonWs (c :: x) = _
  rw [List.dropWhile_cons, h]
  simp

theorem newlineIndent_ws (d : Nat) : ∀ c ∈ newlineIndent d, jsonWs c = true := by
  intro c hc
  rcases List.mem_cons.mp hc with rfl | hc
  · decide
  · rw [List.eq_of_mem_replicate hc]
    decide

theorem skipWs_newlineIndent (d : Nat) (x : List Char) :
    skipWs (newlineIndent d ++ x) = skipWs x :=
  skipWs_ws_prefix (newlineIndent d) x (newlineIndent_ws d)

/-- The characters that can open a serialized JSON value. -/
def valueStart (c : Char) : Prop :=
  c = quoteChar ∨ c = lbrackChar ∨ c = lbraceChar ∨ c = 'n' ∨ c = 't' ∨ c = 'f' ∨
  c = '-' ∨ c.isDigit = true

theorem valueStart_facts (c : Char) (h : valueStart c) :
    jsonWs c = false ∧ c ≠ rbrackChar ∧ c ≠ rbraceChar ∧ c ≠ ',' := by
  rcases h with rfl | rfl | rfl | rfl | rfl | rfl | rfl | hd
  · exact ⟨by decide, by decide, by decide, by decide⟩
  · exact ⟨by decide, by decide, by decide, by decide⟩
  · exact ⟨by decide, by decide, by decide, by decide⟩
  · exact ⟨by decide, by decide, by decide, by decide⟩
  · exact ⟨by decide, by decide, by decide, by decide⟩
  · exact ⟨by decide, by decide, by decide, by decide⟩
  · exact ⟨by decide, by decide, by decide, by decide⟩
  · refine ⟨?_, ?_, ?_, ?_⟩
    · unfold jsonWs
      apply decide_eq_false
      rintro (rfl | rfl | rfl | rfl)
      all_goals exact absurd hd (by decide)
    · rintro rfl; exact absurd hd (by decide)
    · rintro rfl; exact absurd hd (by decide)
    · rintro rfl; exact absurd hd (by decide)

theorem encV_null (d : Nat) : encV d .null = ['n', 'u', 'l', 'l'] := by simp [encV]

theorem encV_true (d : Nat) : encV d (.bool true) = ['t', 'r', 'u', 'e'] := by simp [encV]

theorem encV_false (d : Nat) : encV d (.bool false) = ['f', 'a', 'l', 's', 'e'] := by
  simp [encV]

theorem encV_num (d : Nat) (i : Int) : encV d (.num i) = encInt i := by simp [encV]

theorem encV_str (d : Nat) (s : String) : encV d (.str s) = encodeStr s := by simp [encV]

theorem encV_arr_nil (d : Nat) : encV d (.arr []) = [lbrackChar, rbrackChar] := by
  simp [encV]

theorem encV_arr_cons (d : Nat) (x : JValue) (xs : List JValue) :
    encV d (.arr (x :: xs)) =
      lbrackChar :: (newlineIndent (d + 2) ++ encV (d + 2) x ++ encLRest (d + 2) xs ++
        newlineIndent d ++ [rbrackChar]) := by
  simp [encV]

theorem encV_obj_nil (d : Nat) : encV d (.obj []) = [lbraceChar, rbraceChar] := by
  simp [encV]

theorem encV_obj_cons (d : Nat) (k : String) (v : JValue) (fs : List (String × JValue)) :
    encV d (.obj ((k, v) :: fs)) =
      lbraceChar :: (newlineIndent (d + 2) ++ encodeStr k ++
        (':' :: ' ' :: encV (d + 2) v) ++ encMRest (d + 2) fs ++
        newlineIndent d ++ [rbraceChar]) := by
  simp [encV]

theorem encLRest_cons (d : Nat) (x : JValue) (xs : List JValue) :
    encLRest d (x :: xs) = ',' :: (newlineIndent d ++ encV d x ++ encLRest d xs) := by
  simp [encLRest]

theorem encMRest_cons (d : Nat) (k : String) (v : JValue) (fs : List (String × JValue)) :
    encMRest d ((k, v) :: fs) =
      ',' :: (newlineIndent d ++ encodeStr k ++ (':' :: ' ' :: encV d v) ++ encMRest d fs) := by
  simp [encMRest]

theorem encLRest_nil (d : Nat) : encLRest d [] = [] := by simp [encLRest]

theorem encMRest_nil (d : Nat) : encMRest d [] = [] := by simp [encMRest]

mutual
/-- Fuel budget for parsing the serialization of a value: counts parser
invocations, not characters. -/
def needsV : JValue → Nat
  | .arr xs => needsL xs + 1
  | .obj fs => needsM fs + 1
  | _ => 1
def needsL : List JValue → Nat
  | [] => 1
  | x :: xs => needsV x + needsL xs + 1
def needsM : List (String × JValue) → Nat
  | [] => 1
  | (_, v) :: fs => needsV v + needsM fs + 1
end

theorem needsV_arr (xs : List JValue) : needsV (.arr xs) = needsL xs + 1 := by
  simp [needsV]

theorem needsV_obj (fs : List (String × JValue)) : needsV (.obj fs) = needsM fs + 1 := by
  simp [needsV]

theorem needsL_nil : needsL ([] : List JValue) = 1 := by simp [needsL]

theorem needsL_cons (x : JValue) (xs : List JValue) :
    needsL (x :: xs) = needsV x + needsL xs + 1 := by simp [needsL]

theorem needsM_nil : needsM ([] : List (String × JValue)) = 1 := by simp [needsM]

theorem needsM_cons (k : String) (v : JValue) (fs : List (String × JValue)) :
    needsM ((k, v) :: fs) = needsV v + needsM fs + 1 := by simp [needsM]

theorem needsV_pos (v : JValue) : 1 ≤ needsV v := by
  cases v with
  | arr xs => rw [needsV_arr]; omega
  | obj fs => rw [needsV_obj]; omega
  | null => simp [needsV]
  | bool b => simp [needsV]
  | num n => simp [needsV]
  | str s => simp [needsV]

theorem encV_head (d : Nat) (v : JValue) :
    ∃ c cs, encV d v = c :: cs ∧ valueStart c := by
  cases v with
  | null => exact ⟨'n', _, encV_null d, by unfold valueStart; tauto⟩
  | bool b =>
    cases b with
    | true => exact ⟨'t', _, encV_true d, by unfold valueStart; tauto⟩
    | false => exact ⟨'f', _, encV_false d, by unfold valueStart; tauto⟩
  | num i =>
    rw [encV_num]
    unfold encInt
    by_cases hneg : i < 0
    · rw [if_pos hneg]
      exact ⟨'-', _, rfl, by unfold valueStart; tauto⟩
    · rw [if_neg hneg]
      obtain ⟨k, tail, hk, hshape⟩ := encNat_shape i.toNat
      exact ⟨Char.ofNat (48 + k), tail, hshape,
        Or.inr (Or.inr (Or.inr (Or.inr (Or.inr (Or.inr (Or.inr (digitCharFacts k hk).1))))))⟩
  | str s => exact ⟨quoteChar, _, encV_str d s, by unfold valueStart; tauto⟩
  | arr xs =>
    cases xs with
    | nil => exact ⟨lbrackChar, _, encV_arr_nil d, by unfold valueStart; tauto⟩
    | cons x xs => exact ⟨lbrackChar, _, encV_arr_cons d x xs, by unfold valueStart; tauto⟩
  | obj fs =>
    cases fs with
    | nil => exact ⟨lbraceChar, _, encV_obj_nil d, by unfold valueStart; tauto⟩
    | cons p fs =>
      obtain ⟨k, v⟩ := p
      exact ⟨lbraceChar, _, encV_obj_cons d k v fs, by unfold valueStart; tauto⟩

theorem numSafe_comma (x : List Char) : numSafe (',' :: x) :=
  ⟨by decide, by decide, by decide, by decide⟩

theorem numSafe_nl (x : List Char) : numSafe (nlChar :: x) :=
  ⟨by decide, by decide, by decide, by decide⟩

theorem numSafe_encLRest (d d0 : Nat) (xs : List JValue) (z : List Char) :
    numSafe (encLRest d xs ++ (newlineIndent d0 ++ z)) := by
  cases xs with
  | nil =>
    rw [encLRest_nil]
    exact numSafe_nl _
  | cons x xs =>
    rw [encLRest_cons]
    exact numSafe_comma _

theorem numSafe_encMRest (d d0 : Nat) (fs : List (String × JValue)) (z : List Char) :
    numSafe (encMRest d fs ++ (newlineIndent d0 ++ z)) := by
  cases fs with
  | nil =>
    rw [encMRest_nil]
    exact numSafe_nl _
  | cons p fs =>
    obtain ⟨k, v⟩ := p
    rw [encMRest_cons]
    exact numSafe_comma _

theorem parseVal_cons (f : Nat) (c : Char) (rest : List Char) :
    parseVal (f + 1) (c :: rest) =
      (if c = quoteChar then
        (decodeStr rest).map (fun p => (JValue.str (String.mk p.1), p.2))
      else if c = lbrackChar then parseItems f (skipWs rest)
      else if c = lbraceChar then parseMembers f (skipWs rest)
      else if c = 'n' then
        (match rest with
         | 'u' :: 'l' :: 'l' :: r => some (JValue.null, r)
         | _ => none)
      else if c = 't' then
        (match rest with
         | 'r' :: 'u' :: 'e' :: r => some (JValue.bool true, r)
         | _ => none)
      else if c = 'f' then
        (match rest with
         | 'a' :: 'l' :: 's' :: 'e' :: r => some (JValue.bool false, r)
         | _ => none)
      else (parseNum (c :: rest)).map (fun p => (JValue.num p.1, p.2))) := rfl

theorem parseItems_cons (f : Nat) (c : Char) (rest : List Char) :
    parseItems (f + 1) (c :: rest) =
      (if c = rbrackChar then some (.arr [], rest)
      else
        match parseVal f (c :: rest) with
        | none => none
        | some (v, r) =>
          match parseItemsRest f (skipWs r) with
          | some (xs, r2) => some (.arr (v :: xs), r2)
          | none => none) := rfl

theorem parseItemsRest_cons (f : Nat) (c : Char) (rest : List Char) :
    parseItemsRest (f + 1) (c :: rest) =
      (if c = rbrackChar then some ([], rest)
      else if c = ',' then
        match parseVal f (skipWs rest) with
        | none => none
        | some (v, r) =>
          match parseItemsRest f (skipWs r) with
          | some (xs, r2) => some (v :: xs, r2)
          | none => none
      else none) := rfl

theorem parseMembers_cons (f : Nat) (c : Char) (rest : List Char) :
    parseMembers (f + 1) (c :: rest) =
      (if c = rbraceChar then some (.obj [], rest)
      else if c = quoteChar then
        match decodeStr rest with
        | none => none
        | some (kcs, r1) =>
          match skipWs r1 with
          | c2 :: r2 =>
            if c2 = ':' then
              match parseVal f (skipWs r2) with
              | none => none
              | some (v, r3) =>
                match parseMembersRest f (skipWs r3) with
                | some (fs, r4) => some (.obj ((String.mk kcs, v) :: fs), r4)
                | none => none
            else none
          | [] => none
      else none) := rfl

theorem parseMembersRest_cons (f : Nat) (c : Char) (rest : List Char) :
    parseMembersRest (f + 1) (c :: rest) =
      (if c = rbraceChar then some ([], rest)
      else if c = ',' then
        match skipWs rest with
        | q :: r0 =>
          if q = quoteChar then
            match decodeStr r0 with
            | none => none
            | some (kcs, r1) =>
              match skipWs r1 with
              | c2 :: r2 =>
                if c2 = ':' then
                  match parseVal f (skipWs r2) with
                  | none => none
                  | some (v, r3) =>
                    match parseMembersRest f (skipWs r3) with
                    | some (fs, r4) => some ((String.mk kcs, v) :: fs, r4)
                    | none => none
                else none
              | [] => none
          else none
        | [] => none
      else none) := rfl

theorem skipWs_space (x : List Char) : skipWs (' ' :: x) = skipWs x := by
  show List.dropWhile jsonWs (' ' :: x) = _
  rw [List.dropWhile_cons]
  rw [show jsonWs ' ' = true from by decide]
  rfl

theorem digit_ne_starts (c : Char) (h : c.isDigit = true) :
    c ≠ quoteChar ∧ c ≠ lbrackChar ∧ c ≠ lbraceChar ∧ c ≠ 'n' ∧ c ≠ 't' ∧ c ≠ 'f' := by
  refine ⟨?_, ?_, ?_, ?_, ?_, ?_⟩ <;> (rintro rfl; exact absurd h (by decide))

theorem encInt_head (i : Int) :
    ∃ c tail, encInt i = c :: tail ∧ (c = '-' ∨ c.isDigit = true) := by
  unfold encInt
  by_cases hneg : i < 0
  · rw [if_pos hneg]
    exact ⟨'-', _, rfl, Or.inl rfl⟩
  · rw [if_neg hneg]
    obtain ⟨k, tail, hk, hshape⟩ := encNat_shape i.toNat
    exact ⟨Char.ofNat (48 + k), tail, hshape, Or.inr (digitCharFacts k hk).1⟩

theorem decodeStr_encodeChars (cs rest : List Char) :
    decodeStr (encodeChars cs ++ (quoteChar :: rest)) = some (cs, rest) := by
  unfold decodeStr
  apply decode_encodeChars
  have := encodeChars_length_ge cs
  rw [List.length_append]
  omega


/-- Round trip of the JSON grammar: with enough fuel, every parser entry point
consumes exactly the text the encoder produced, at any indentation depth. -/
theorem rt_all (f : Nat) :
    (∀ v d rest, numSafe rest → needsV v ≤ f →
      parseVal f (encV d v ++ rest) = some (v, rest)) ∧
    (∀ x xs d d0 rest, needsL (x :: xs) ≤ f →
      parseItems f (encV d x ++ (encLRest d xs ++ (newlineIndent d0 ++ (rbrackChar :: rest)))) =
        some (.arr (x :: xs), rest)) ∧
    (∀ xs d d0 rest, needsL xs ≤ f →
      parseItemsRest f (skipWs (encLRest d xs ++ (newlineIndent d0 ++ (rbrackChar :: rest)))) =
        some (xs, rest)) ∧
    (∀ k v fs d d0 rest, needsM ((k, v) :: fs) ≤ f →
      parseMembers f (encodeStr k ++ ((':' :: ' ' :: encV d v) ++
        (encMRest d fs ++ (newlineIndent d0 ++ (rbraceChar :: rest))))) =
        some (.obj ((k, v) :: fs), rest)) ∧
    (∀ fs d d0 rest, needsM fs ≤ f →
      parseMembersRest f (skipWs (encMRest d fs ++ (newlineIndent d0 ++ (rbraceChar :: rest)))) =
        some (fs, rest)) := by
  induction f with
  | zero =>
    refine ⟨?_, ?_, ?_, ?_, ?_⟩
    · intro v d rest _ hf
      exact absurd hf (by have := needsV_pos v; omega)
    · intro x xs d d0 rest hf
      rw [needsL_cons] at hf
      exact absurd hf (by have := needsV_pos x; omega)
    · intro xs d d0 rest hf
      cases xs with
      | nil => rw [needsL_nil] at hf; exact absurd hf (by omega)
      | cons y ys =>
        rw [needsL_cons] at hf
        exact absurd hf (by have := needsV_pos y; omega)
    · intro k v fs d d0 rest hf
      rw [needsM_cons] at hf
      exact absurd hf (by have := needsV_pos v; omega)
    · intro fs d d0 rest hf
      cases fs with
      | nil => rw [needsM_nil] at hf; exact absurd hf (by omega)
      | cons p fs =>
        obtain ⟨k, v⟩ := p
        rw [needsM_cons] at hf
        exact absurd hf (by have := needsV_pos v; omega)
  | succ f' ih =>
    obtain ⟨ihv, ihi, ihir, ihm, ihmr⟩ := ih
    refine ⟨?_, ?_, ?_, ?_, ?_⟩
    · intro v d rest hrest hf
      cases v with
      | null =>
        rw [encV_null,
          show ((['n', 'u', 'l', 'l'] : List Char) ++ rest) =
            'n' :: ('u' :: 'l' :: 'l' :: rest) from rfl,
          parseVal_cons, if_neg (by decide), if_neg (by decide), if_neg (by decide),
          if_pos rfl]
        rfl
      | bool b =>
        cases b with
        | true =>
          rw [encV_true,
            show ((['t', 'r', 'u', 'e'] : List Char) ++ rest) =
              't' :: ('r' :: 'u' :: 'e' :: rest) from rfl,
            parseVal_cons, if_neg (by decide), if_neg (by decide), if_neg (by decide),
            if_neg (by decide), if_pos rfl]
          rfl
        | false =>
          rw [encV_false,
            show ((['f', 'a', 'l', 's', 'e'] : List Char) ++ rest) =
              'f' :: ('a' :: 'l' :: 's' :: 'e' :: rest) from rfl,
            parseVal_cons, if_neg (by decide), if_neg (by decide), if_neg (by decide),
            if_neg (by decide), if_neg (by decide), if_pos rfl]
          rfl
      | num i =>
        rw [encV_num]
        obtain ⟨c0, tail, hshape, hc0⟩ := encInt_head i
        have hfacts : c0 ≠ quoteChar ∧ c0 ≠ lbrackChar ∧ c0 ≠ lbraceChar ∧ c0 ≠ 'n' ∧
            c0 ≠ 't' ∧ c0 ≠ 'f' := by
          rcases hc0 with rfl | hd
          · exact ⟨by decide, by decide, by decide, by decide, by decide, by decide⟩
          · exact digit_ne_starts c0 hd
        rw [hshape, List.cons_append, parseVal_cons, if_neg hfacts.1, if_neg hfacts.2.1,
          if_neg hfacts.2.2.1, if_neg hfacts.2.2.2.1, if_neg hfacts.2.2.2.2.1,
          if_neg hfacts.2.2.2.2.2, ← List.cons_append, ← hshape,
          parseNum_encInt i rest hrest]
        rfl
      | str s =>
        rw [encV_str,
          show encodeStr s ++ rest = quoteChar :: (encodeChars s.data ++ (quoteChar :: rest))
            from by simp [encodeStr],
          parseVal_cons, if_pos rfl, decodeStr_encodeChars]
        show some (JValue.str (String.mk s.data), rest) = _
        rw [string_mk_data]
      | arr xs =>
        cases xs with
        | nil =>
          rw [encV_arr_nil,
            show (([lbrackChar, rbrackChar] : List Char) ++ rest) =
              lbrackChar :: (rbrackChar :: rest) from rfl,
            parseVal_cons, if_neg (by decide), if_pos rfl,
            skipWs_cons_false _ _ (by decide)]
          rw [needsV_arr, needsL_nil] at hf
          obtain ⟨f'', rfl⟩ : ∃ f'', f' = f'' + 1 := ⟨f' - 1, by omega⟩
          rw [parseItems_cons, if_pos rfl]
        | cons x xs =>
          rw [encV_arr_cons, List.cons_append, parseVal_cons, if_neg (by decide), if_pos rfl]
          have hassoc : (newlineIndent (d + 2) ++ encV (d + 2) x ++ encLRest (d + 2) xs ++
              newlineIndent d ++ [rbrackChar]) ++ rest =
              newlineIndent (d + 2) ++ (encV (d + 2) x ++ (encLRest (d + 2) xs ++
                (newlineIndent d ++ (rbrackChar :: rest)))) := by
            simp [List.append_assoc]
          rw [hassoc, skipWs_newlineIndent]
          obtain ⟨c, cs, hc, hvs⟩ := encV_head (d + 2) x
          rw [hc, List.cons_append, skipWs_cons_false _ _ (valueStart_facts c hvs).1,
            ← List.cons_append, ← hc]
          rw [needsV_arr] at hf
          exact ihi x xs (d + 2) d rest (by omega)
      | obj fs =>
        cases fs with
        | nil =>
          rw [encV_obj_nil,
            show (([lbraceChar, rbraceChar] : List Char) ++ rest) =
              lbraceChar :: (rbraceChar :: rest) from rfl,
            parseVal_cons, if_neg (by decide), if_neg (by decide), if_pos rfl,
            skipWs_cons_false _ _ (by decide)]
          rw [needsV_obj, needsM_nil] at hf
          obtain ⟨f'', rfl⟩ : ∃ f'', f' = f'' + 1 := ⟨f' - 1, by omega⟩
          rw [parseMembers_cons, if_pos rfl]
        | cons p fs =>
          obtain ⟨k, v⟩ := p
          rw [encV_obj_cons, List.cons_append, parseVal_cons, if_neg (by decide),
            if_neg (by decide), if_pos rfl]
          have hassoc : (newlineIndent (d + 2) ++ encodeStr k ++
              (':' :: ' ' :: encV (d + 2) v) ++ encMRest (d + 2) fs ++
              newlineIndent d ++ [rbraceChar]) ++ rest =
              newlineIndent (d + 2) ++ (encodeStr k ++ ((':' :: ' ' :: encV (d + 2) v) ++
                (encMRest (d + 2) fs ++ (newlineIndent d ++ (rbraceChar :: rest))))) := by
            simp [List.append_assoc]
          rw [hassoc, skipWs_newlineIndent,
            show encodeStr k ++ ((':' :: ' ' :: encV (d + 2) v) ++
              (encMRest (d + 2) fs ++ (newlineIndent d ++ (rbraceChar :: rest)))) =
              quoteChar :: (encodeChars k.data ++
                (quoteChar :: ((':' :: ' ' :: encV (d + 2) v) ++
                  (encMRest (d + 2) fs ++ (newlineIndent d ++ (rbraceChar :: rest))))))
              from by simp [encodeStr],
            skipWs_cons_false _ _ (by decide),
            ← show encodeStr k ++ ((':' :: ' ' :: encV (d + 2) v) ++
              (encMRest (d + 2) fs ++ (newlineIndent d ++ (rbraceChar :: rest)))) =
              quoteChar :: (encodeChars k.data ++
                (quoteChar :: ((':' :: ' ' :: encV (d + 2) v) ++
                  (encMRest (d + 2) fs ++ (newlineIndent d ++ (rbraceChar :: rest))))))
              from by simp [encodeStr]]
          rw [needsV_obj] at hf
          exact ihm k v fs (d + 2) d rest (by omega)
    · intro x xs d d0 rest hf
      rw [needsL_cons] at hf
      have hx := needsV_pos x
      obtain ⟨c, cs, hc, hvs⟩ := encV_head d x
      rw [hc, List.cons_append, parseItems_cons, if_neg (valueStart_facts c hvs).2.1,
        ← List.cons_append, ← hc,
        ihv x d _ (numSafe_encLRest d d0 xs (rbrackChar :: rest)) (by omega)]
      dsimp only
      rw [ihir xs d d0 rest (by omega)]
    · intro xs d d0 rest hf
      cases xs with
      | nil =>
        rw [encLRest_nil, List.nil_append, skipWs_newlineIndent,
          skipWs_cons_false _ _ (by decide), parseItemsRest_cons, if_pos rfl]
      | cons y ys =>
        rw [needsL_cons] at hf
        have hy := needsV_pos y
        rw [encLRest_cons, List.cons_append, skipWs_cons_false _ _ (by decide),
          parseItemsRest_cons, if_neg (by decide), if_pos rfl]
        have hassoc : (newlineIndent d ++ encV d y ++ encLRest d ys) ++
            (newlineIndent d0 ++ (rbrackChar :: rest)) =
            newlineIndent d ++ (encV d y ++ (encLRest d ys ++
              (newlineIndent d0 ++ (rbrackChar :: rest)))) := by
          simp [List.append_assoc]
        rw [hassoc, skipWs_newlineIndent]
        obtain ⟨c, cs, hc, hvs⟩ := encV_head d y
        rw [hc, List.cons_append, skipWs_cons_false _ _ (valueStart_facts c hvs).1,
          ← List.cons_append, ← hc,
          ihv y d _ (numSafe_encLRest d d0 ys (rbrackChar :: rest)) (by omega)]
        dsimp only
        rw [ihir ys d d0 rest (by omega)]
    · intro k v fs d d0 rest hf
      rw [needsM_cons] at hf
      have hv := needsV_pos v
      rw [show encodeStr k ++ ((':' :: ' ' :: encV d v) ++
          (encMRest d fs ++ (newlineIndent d0 ++ (rbraceChar :: rest)))) =
          quoteChar :: (encodeChars k.data ++ (quoteChar :: ((':' :: ' ' :: encV d v) ++
            (encMRest d fs ++ (newlineIndent d0 ++ (rbraceChar :: rest))))))
          from by simp [encodeStr],
        parseMembers_cons, if_neg (by decide), if_pos rfl, decodeStr_encodeChars]
      dsimp only
      rw [show ((':' :: ' ' :: encV d v) ++
          (encMRest d fs ++ (newlineIndent d0 ++ (rbraceChar :: rest)))) =
          ':' :: ((' ' :: encV d v) ++
            (encMRest d fs ++ (newlineIndent d0 ++ (rbraceChar :: rest)))) from rfl,
        skipWs_cons_false _ _ (by decide)]
      dsimp only
      rw [if_pos rfl]
      rw [show ((' ' :: encV d v) ++
          (encMRest d fs ++ (newlineIndent d0 ++ (rbraceChar :: rest)))) =
          ' ' :: (encV d v ++
            (encMRest d fs ++ (newlineIndent d0 ++ (rbraceChar :: rest)))) from rfl,
        skipWs_space]
      obtain ⟨c, cs, hc, hvs⟩ := encV_head d v
      rw [hc, List.cons_append, skipWs_cons_false _ _ (valueStart_facts c hvs).1,
        ← List.cons_append, ← hc,
        ihv v d _ (numSafe_encMRest d d0 fs (rbraceChar :: rest)) (by omega)]
      dsimp only
      rw [ihmr fs d d0 rest (by omega)]
    · intro fs d d0 rest hf
      cases fs with
      | nil =>
        rw [encMRest_nil, List.nil_append, skipWs_newlineIndent,
          skipWs_cons_false _ _ (by decide), parseMembersRest_cons, if_pos rfl]
      | cons p fs =>
        obtain ⟨k, v⟩ := p
        rw [needsM_cons] at hf
        have hv := needsV_pos v
        rw [encMRest_cons, List.cons_append, skipWs_cons_false _ _ (by decide),
          parseMembersRest_cons, if_neg (by decide), if_pos rfl]
        have hassoc : (newlineIndent d ++ encodeStr k ++ (':' :: ' ' :: encV d v) ++
            encMRest d fs) ++ (newlineIndent d0 ++ (rbraceChar :: rest)) =
            newlineIndent d ++ (encodeStr k ++ ((':' :: ' ' :: encV d v) ++
              (encMRest d fs ++ (newlineIndent d0 ++ (rbraceChar :: rest))))) := by
          simp [List.append_assoc]
        rw [hassoc, skipWs_newlineIndent,
          show encodeStr k ++ ((':' :: ' ' :: encV d v) ++
            (encMRest d fs ++ (newlineIndent d0 ++ (rbraceChar :: rest)))) =
            quoteChar :: (encodeChars k.data ++ (quoteChar :: ((':' :: ' ' :: encV d v) ++
              (encMRest d fs ++ (newlineIndent d0 ++ (rbraceChar :: rest))))))
            from by simp [encodeStr],
          skipWs_cons_false _ _ (by decide)]
        dsimp only
        rw [if_pos rfl, decodeStr_encodeChars]
        dsimp only
        rw [show ((':' :: ' ' :: encV d v) ++
            (encMRest d fs ++ (newlineIndent d0 ++ (rbraceChar :: rest)))) =
            ':' :: ((' ' :: encV d v) ++
              (encMRest d fs ++ (newlineIndent d0 ++ (rbraceChar :: rest)))) from rfl,
          skipWs_cons_false _ _ (by decide)]
        dsimp only
        rw [if_pos rfl]
        rw [show ((' ' :: encV d v) ++
            (encMRest d fs ++ (newlineIndent d0 ++ (rbraceChar :: rest)))) =
            ' ' :: (encV d v ++
              (encMRest d fs ++ (newlineIndent d0 ++ (rbraceChar :: rest)))) from rfl,
          skipWs_space]
        obtain ⟨c, cs, hc, hvs⟩ := encV_head d v
        rw [hc, List.cons_append, skipWs_cons_false _ _ (valueStart_facts c hvs).1,
          ← List.cons_append, ← hc,
          ihv v d _ (numSafe_encMRest d d0 fs (rbraceChar :: rest)) (by omega)]
        dsimp only
        rw [ihmr fs d d0 rest (by omega)]

theorem newlineIndent_length (d : Nat) : (newlineIndent d).length = d + 1 := by
  simp [newlineIndent, spacesChars]

/-- The parser fuel a value needs is dominated by the length of its
serialization (with a small additive slack for the empty containers). -/
theorem needs_bound (n : Nat) :
    (∀ v d, sizeOf v ≤ n → needsV v ≤ (encV d v).length + 1) ∧
    (∀ xs d, sizeOf xs ≤ n → needsL xs ≤ (encLRest d xs).length + 2) ∧
    (∀ fs d, sizeOf fs ≤ n → needsM fs ≤ (encMRest d fs).length + 2) := by
  induction n with
  | zero =>
    refine ⟨?_, ?_, ?_⟩
    · intro v d hs
      exact absurd hs (by cases v <;> simp)
    · intro xs d hs
      exact absurd hs (by cases xs <;> simp)
    · intro fs d hs
      exact absurd hs (by cases fs <;> simp)
  | succ n ih =>
    obtain ⟨bv, bl, bm⟩ := ih
    refine ⟨?_, ?_, ?_⟩
    · intro v d hs
      cases v with
      | null =>
        have h1 : needsV JValue.null = 1 := by simp [needsV]
        rw [h1]; omega
      | bool b =>
        have h1 : needsV (JValue.bool b) = 1 := by simp [needsV]
        rw [h1]; omega
      | num i =>
        have h1 : needsV (JValue.num i) = 1 := by simp [needsV]
        rw [h1]; omega
      | str s =>
        have h1 : needsV (JValue.str s) = 1 := by simp [needsV]
        rw [h1]; omega
      | arr xs =>
        cases xs with
        | nil =>
          rw [needsV_arr, needsL_nil, encV_arr_nil]
          simp
        | cons x xs =>
          have hsx : sizeOf x ≤ n := by simp at hs; omega
          have hsxs : sizeOf xs ≤ n := by simp at hs; omega
          have h1 := bv x (d + 2) hsx
          have h2 := bl xs (d + 2) hsxs
          rw [needsV_arr, needsL_cons, encV_arr_cons]
          simp only [List.length_cons, List.length_append, newlineIndent_length,
            List.length_nil]
          omega
      | obj fs =>
        cases fs with
        | nil =>
          rw [needsV_obj, needsM_nil, encV_obj_nil]
          simp
        | cons p fs =>
          obtain ⟨k, v⟩ := p
          have hsv : sizeOf v ≤ n := by simp at hs; omega
          have hsfs : sizeOf fs ≤ n := by simp at hs; omega
          have h1 := bv v (d + 2) hsv
          have h2 := bm fs (d + 2) hsfs
          rw [needsV_obj, needsM_cons, encV_obj_cons]
          simp only [List.length_cons, List.length_append, newlineIndent_length,
            List.length_nil]
          omega
    · intro xs d hs
      cases xs with
      | nil =>
        rw [needsL_nil, encLRest_nil]
        simp
      | cons x xs =>
        have hsx : sizeOf x ≤ n := by simp at hs; omega
        have hsxs : sizeOf xs ≤ n := by simp at hs; omega
        have h1 := bv x d hsx
        have h2 := bl xs d hsxs
        rw [needsL_cons, encLRest_cons]
        simp only [List.length_cons, List.length_append, newlineIndent_length]
        omega
    · intro fs d hs
      cases fs with
      | nil =>
        rw [needsM_nil, encMRest_nil]
        simp
      | cons p fs =>
        obtain ⟨k, v⟩ := p
        have hsv : sizeOf v ≤ n := by simp at hs; omega
        have hsfs : sizeOf fs ≤ n := by simp at hs; omega
        have h1 := bv v d hsv
        have h2 := bm fs d hsfs
        rw [needsM_cons, encMRest_cons]
        simp only [List.length_cons, List.length_append, newlineIndent_length]
        omega

/-- `json.loads` inverts `json.dumps` up to the deep key-sorting the
encoder performs. -/
theorem loads_dumps (v : JValue) : jsonLoads (jsonDumps v) = some (sortV v) := by
  have hskip : skipWs (encV 0 (sortV v)) = encV 0 (sortV v) := by
    obtain ⟨c, cs, hc, hvs⟩ := encV_head 0 (sortV v)
    rw [hc]
    exact skipWs_cons_false _ _ (valueStart_facts c hvs).1
  have hneeds : needsV (sortV v) ≤ 4 * (encV 0 (sortV v)).length + 4 := by
    have h := (needs_bound (sizeOf (sortV v))).1 (sortV v) 0 (Nat.le_refl _)
    omega
  have hparse : parseVal (4 * (encV 0 (sortV v)).length + 4) (encV 0 (sortV v)) =
      some (sortV v, []) := by
    have h := (rt_all (4 * (encV 0 (sortV v)).length + 4)).1 (sortV v) 0 [] trivial hneeds
    rwa [List.append_nil] at h
  have h0 : jsonLoads (jsonDumps v) =
      (match parseVal (4 * (skipWs (encV 0 (sortV v))).length + 4)
          (skipWs (encV 0 (sortV v))) with
        | some (w, rest) => if (skipWs rest).isEmpty then some w else none
        | none => none) := rfl
  rw [h0, hskip, hparse]
  rfl

theorem sortM_lookup (k : String) (fs : List (String × JValue)) :
    List.lookup k (sortM fs) = (List.lookup k fs).map sortV := by
  induction fs with
  | nil => rfl
  | cons p rest ih =>
    obtain ⟨k0, v0⟩ := p
    rw [show sortM ((k0, v0) :: rest) = (k0, sortV v0) :: sortM rest from by simp [sortM]]
    by_cases hk : k = k0
    · subst hk
      simp [List.lookup]
    · have hb : (k == k0) = false := beq_eq_false_iff_ne.mpr hk
      simp [List.lookup, hb, ih]

theorem sortM_keys (fs : List (String × JValue)) :
    (sortM fs).map Prod.fst = fs.map Prod.fst := by
  induction fs with
  | nil => rfl
  | cons p rest ih =>
    obtain ⟨k0, v0⟩ := p
    rw [show sortM ((k0, v0) :: rest) = (k0, sortV v0) :: sortM rest from by simp [sortM]]
    simp [ih]

theorem insertByKey_keys_mem (pk : String) (pv : JValue) (l : List (String × JValue))
    (x : String) :
    x ∈ (insertByKey (pk, pv) l).map Prod.fst ↔ x = pk ∨ x ∈ l.map Prod.fst := by
  induction l with
  | nil => simp [insertByKey]
  | cons q rest ih =>
    obtain ⟨qk, qv⟩ := q
    rw [show insertByKey (pk, pv) ((qk, qv) :: rest) =
        (if pk < qk then (pk, pv) :: (qk, qv) :: rest
         else (qk, qv) :: insertByKey (pk, pv) rest) from rfl]
    by_cases hlt : pk < qk
    · rw [if_pos hlt]
      simp only [List.map_cons, List.mem_cons]
    · rw [if_neg hlt]
      simp only [List.map_cons, List.mem_cons, ih]
      tauto

theorem sortByKey_keys_mem (l : List (String × JValue)) (x : String) :
    x ∈ (sortByKey l).map Prod.fst ↔ x ∈ l.map Prod.fst := by
  induction l with
  | nil => simp [sortByKey]
  | cons p rest ih =>
    obtain ⟨pk, pv⟩ := p
    rw [show sortByKey ((pk, pv) :: rest) = insertByKey (pk, pv) (sortByKey rest) from rfl]
    rw [insertByKey_keys_mem, ih]
    simp

theorem lookup_insertByKey_ne (pk : String) (pv : JValue) (l : List (String × JValue))
    (k : String) (hk : k ≠ pk) :
    List.lookup k (insertByKey (pk, pv) l) = List.lookup k l := by
  have hb : (k == pk) = false := beq_eq_false_iff_ne.mpr hk
  induction l with
  | nil => simp [insertByKey, List.lookup, hb]
  | cons q rest ih =>
    obtain ⟨qk, qv⟩ := q
    rw [show insertByKey (pk, pv) ((qk, qv) :: rest) =
        (if pk < qk then (pk, pv) :: (qk, qv) :: rest
         else (qk, qv) :: insertByKey (pk, pv) rest) from rfl]
    by_cases hlt : pk < qk
    · rw [if_pos hlt]
      simp [List.lookup, hb]
    · rw [if_neg hlt]
      by_cases hq : k = qk
      · subst hq
        simp [List.lookup]
      · have hbq : (k == qk) = false := beq_eq_false_iff_ne.mpr hq
        simp [List.lookup, hbq, ih]

theorem lookup_insertByKey_self (pk : String) (pv : JValue) :
    ∀ l : List (String × JValue), pk ∉ l.map Prod.fst →
      List.lookup pk (insertByKey (pk, pv) l) = some pv := by
  intro l
  induction l with
  | nil =>
    intro _
    simp [insertByKey, List.lookup]
  | cons q rest ih =>
    intro hnm
    obtain ⟨qk, qv⟩ := q
    rw [show insertByKey (pk, pv) ((qk, qv) :: rest) =
        (if pk < qk then (pk, pv) :: (qk, qv) :: rest
         else (qk, qv) :: insertByKey (pk, pv) rest) from rfl]
    have hne : pk ≠ qk := by
      intro he
      exact hnm (by simp [he])
    by_cases hlt : pk < qk
    · rw [if_pos hlt]
      simp [List.lookup]
    · rw [if_neg hlt]
      have hbq : (pk == qk) = false := beq_eq_false_iff_ne.mpr hne
      have ih2 := ih (fun hm => hnm (by simp [hm]))
      simp [List.lookup, hbq, ih2]

theorem lookup_sortByKey (k : String) :
    ∀ l : List (String × JValue), (l.map Prod.fst).Nodup →
      List.lookup k (sortByKey l) = List.lookup k l := by
  intro l
  induction l with
  | nil =>
    intro _
    rfl
  | cons p rest ih =>
    intro hnd
    obtain ⟨pk, pv⟩ := p
    rw [show sortByKey ((pk, pv) :: rest) = insertByKey (pk, pv) (sortByKey rest) from rfl]
    have hnd2 : (rest.map Prod.fst).Nodup := by
      simp only [List.map_cons, List.nodup_cons] at hnd
      exact hnd.2
    by_cases hk : k = pk
    · have hnm : pk ∉ (sortByKey rest).map Prod.fst := by
        intro hm
        have h2 := (sortByKey_keys_mem rest pk).mp hm
        simp only [List.map_cons, List.nodup_cons] at hnd
        exact hnd.1 h2
      rw [hk, lookup_insertByKey_self pk pv (sortByKey rest) hnm]
      simp [List.lookup]
    · have hb : (k == pk) = false := beq_eq_false_iff_ne.mpr hk
      rw [lookup_insertByKey_ne pk pv (sortByKey rest) k hk, ih hnd2]
      simp [List.lookup, hb]

/-- Looking a key up in the deep-sorted object body recovers the original
value, deep-sorted, whenever the record's keys are distinct. -/
theorem lookup_sorted (k : String) (r : List (String × JValue))
    (hnd : (r.map Prod.fst).Nodup) :
    List.lookup k (sortByKey (sortM r)) = (List.lookup k r).map sortV := by
  have h1 : ((sortM r).map Prod.fst).Nodup := by
    rw [sortM_keys]
    exact hnd
  rw [lookup_sortByKey k (sortM r) h1, sortM_lookup k r]

/-- C9: for every credential record (a JSON object with distinct keys whose
`api_key`, `api_base_url` and `token_base_url` fields are strings), saving it
with `save_cached_credentials` and then loading from the same path with
`load_cached_credentials` yields a record with the same api key, api base URL
and token base URL as the record saved. -/
theorem c9_save_load_roundtrip (fs : FileSys) (path : String)
    (r : List (String × JValue)) (k a t : String)
    (hnd : (r.map Prod.fst).Nodup)
    (hk : List.lookup "api_key" r = some (.str k))
    (ha : List.lookup "api_base_url" r = some (.str a))
    (ht : List.lookup "token_base_url" r = some (.str t)) :
    ∃ r2, load_cached_credentials (save_cached_credentials fs path r) path = some r2 ∧
      List.lookup "api_key" r2 = some (.str k) ∧
      List.lookup "api_base_url" r2 = some (.str a) ∧
      List.lookup "token_base_url" r2 = some (.str t) := by
  refine ⟨sortByKey (sortM r), ?_, ?_, ?_, ?_⟩
  · unfold load_cached_credentials
    rw [save_lookup]
    dsimp only
    rw [loads_dumps (.obj r),
      show sortV (.obj r) = .obj (sortByKey (sortM r)) from by simp [sortV]]
  · rw [lookup_sorted "api_key" r hnd, hk]
    simp [sortV]
  · rw [lookup_sorted "api_base_url" r hnd, ha]
    simp [sortV]
  · rw [lookup_sorted "token_base_url" r hnd, ht]
    simp [sortV]

/-- C9 witness: a concrete three-field record written to an empty file system
round-trips through save and load. -/
theorem c9_witness :
    (([("api_key", JValue.str "ck"), ("api_base_url", JValue.str "https://a"),
       ("token_base_url", JValue.str "https://t")].map Prod.fst).Nodup) ∧
    (∃ r2, load_cached_credentials
        (save_cached_credentials [] "creds.json"
          [("api_key", JValue.str "ck"), ("api_base_url", JValue.str "https://a"),
           ("token_base_url", JValue.str "https://t")]) "creds.json" = some r2 ∧
      List.lookup "api_key" r2 = some (.str "ck") ∧
      List.lookup "api_base_url" r2 = some (.str "https://a") ∧
      List.lookup "token_base_url" r2 = some (.str "https://t")) :=
  ⟨by decide, c9_save_load_roundtrip [] "creds.json" _ "ck" "https://a" "https://t"
    (by decide) rfl rfl rfl⟩
